import Mathlib

/-!
Verification development for the `dclass` schema-compiler package
(Astron/astron.libgo).  The Go source under `src/dclass` is embedded
shallowly: the hand-rolled lexer (`lex.go`) is modelled as a fuelled state
machine producing the same token sequence the Go goroutine sends over its
channel; the recursive-descent parser (`parse.go`) is modelled as explicit
state passing over the token list.  Go specifics that matter to observable
behaviour are modelled faithfully:

* the parser's methods use value receivers (`func (p parser) ...`), so any
  mutation of `p.errors`, `p.foundEOF` or the pending maps inside a callee
  is lost when it returns; only state reached through the pointer fields
  `p.dcf` and `p.lex` survives a call;
* the pending maps (`expectedKeywords` ...) are never initialised and never
  written, so they are empty in every reachable state;
* multi-byte runes are modelled as single `Char`s, so positions count runes
  (for ASCII input this coincides with Go's byte offsets), and
  `unicode.IsLetter`/`IsDigit` are approximated by their ASCII fragments,
  which agree with Go on every input appearing in a claim.
-/

namespace Dclass

/-! ## Tokens (`lex.go`, `tokenType` and `token`) -/

/-- `tokenType` from `lex.go`; constructors in the source's `iota` order. -/
inductive TokenType where
  | error | eof
  | bool | number | rawchar | quote
  | identifier | operator | leftParen | rightParen | leftCurly | rightCurly
  | leftSquare | rightSquare | composition | endline | seperator | assignment
  | varArray
  | keyDelim | keyword | dclass | struct
  | typeDelim
  | int8 | int16 | int32 | int64 | uint8 | uint16 | uint32 | uint64
  | float | string | blob | char
deriving DecidableEq, Repr

/-- The numeric value `iota` gives each `tokenType` constant in `lex.go`. -/
def TokenType.toNat : TokenType → Nat
  | .error => 0 | .eof => 1
  | .bool => 2 | .number => 3 | .rawchar => 4 | .quote => 5
  | .identifier => 6 | .operator => 7 | .leftParen => 8 | .rightParen => 9
  | .leftCurly => 10 | .rightCurly => 11 | .leftSquare => 12
  | .rightSquare => 13 | .composition => 14 | .endline => 15
  | .seperator => 16 | .assignment => 17 | .varArray => 18
  | .keyDelim => 19 | .keyword => 20 | .dclass => 21 | .struct => 22
  | .typeDelim => 23
  | .int8 => 24 | .int16 => 25 | .int32 => 26 | .int64 => 27
  | .uint8 => 28 | .uint16 => 29 | .uint32 => 30 | .uint64 => 31
  | .float => 32 | .string => 33 | .blob => 34 | .char => 35

/-- `token` from `lex.go`: kind, starting position, literal text.  Text is a
`List Char`; for error tokens it carries the error message, as in Go. -/
structure Token where
  typ : TokenType
  pos : Nat
  val : List Char
deriving DecidableEq, Repr

/-- `input[a:b]` on a rune list. -/
def extract (cs : List Char) (a b : Nat) : List Char :=
  (cs.drop a).take (b - a)

/-! ## Character classes (`lex.go` bottom) -/

/-- `isSpace` from `lex.go`. -/
def isSpace (c : Char) : Bool := c == ' ' || c == '\t'

/-- `isEndOfLine` from `lex.go`. -/
def isEndOfLine (c : Char) : Bool := c == '\r' || c == '\n'

/-- `isAlphaNumeric` from `lex.go` (`unicode.IsLetter`/`IsDigit` restricted
to ASCII). -/
def isAlphaNumeric (c : Char) : Bool := c == '_' || c.isAlpha || c.isDigit

/-- `isOperator` from `lex.go`. -/
def isOperator (c : Char) : Bool :=
  c == '+' || c == '-' || c == '*' || c == '/' || c == '%' || c == '='

/-- The `key` map from `lex.go`: identifier text of declaration and
data-type keywords.  `none` models Go's zero value `tokenError`, which is
never `> tokenKeyDelim`. -/
def key (word : List Char) : Option TokenType :=
  if word = "keyword".data then some .keyword
  else if word = "dclass".data then some .dclass
  else if word = "struct".data then some .struct
  else if word = "int8".data then some .int8
  else if word = "int16".data then some .int16
  else if word = "int32".data then some .int32
  else if word = "int64".data then some .int64
  else if word = "uint8".data then some .uint8
  else if word = "uint16".data then some .uint16
  else if word = "uint32".data then some .uint32
  else if word = "uint64".data then some .uint64
  else if word = "float64".data then some .float
  else if word = "string".data then some .string
  else if word = "blob".data then some .blob
  else if word = "char".data then some .char
  else none

/-! ## Decimal / hex rendering helpers (used by error and diagnostic
messages, and by the spec-modelled codec) -/

/-- Little-endian decimal digits of `n`; first argument is fuel (callers
pass `n` itself, which suffices since `n / 10 < n` for `n > 0`). -/
def toDigitsLE : Nat → Nat → List Nat
  | 0, _ => []
  | _ + 1, 0 => []
  | fuel + 1, n + 1 => ((n + 1) % 10) :: toDigitsLE fuel ((n + 1) / 10)

/-- The ASCII digit character for `d < 10`. -/
def digitChar (d : Nat) : Char := Char.ofNat (48 + d)

/-- Decimal text of a natural number. -/
def natToDec (n : Nat) : List Char :=
  if n = 0 then ['0'] else ((toDigitsLE n n).map digitChar).reverse

/-- Uppercase hex digit for `d < 16`. -/
def hexDigitChar (d : Nat) : Char :=
  if d < 10 then Char.ofNat (48 + d) else Char.ofNat (55 + d)

/-- Little-endian hex digits (fuelled like `toDigitsLE`). -/
def toHexLE : Nat → Nat → List Nat
  | 0, _ => []
  | _ + 1, 0 => []
  | fuel + 1, n + 1 => ((n + 1) % 16) :: toHexLE fuel ((n + 1) / 16)

/-- Hex text padded to at least four digits, as Go's `%04X`. -/
def hex4 (n : Nat) : List Char :=
  let ds := ((toHexLE n n).map hexDigitChar).reverse
  let ds := if ds = [] then ['0'] else ds
  (List.replicate (4 - ds.length) '0') ++ ds

/-- Go's `%#U` of a rune, e.g. `U+0029 ')'`; `none` is the `eof` sentinel
`-1` (text immaterial to every claim). -/
def fmtRuneU : Option Char → List Char
  | some c => "U+".data ++ hex4 c.toNat ++ [' ', '\x27', c, '\x27']
  | none => "U+-1".data

/-- Go's `%q` of a string whose characters need no escaping (every use in
the source applies it to alphanumeric source slices). -/
def goQuote (s : List Char) : List Char := '"' :: s ++ ['"']

/-! ## Lexer state (`lexer` struct) and primitives -/

/-- The scanner state of `lex.go`'s `lexer` (the token-output fields
`tokens`, `lastPos`, `peekedToken`, `hasPeeked` are modelled by returning
the emitted token list and, in the parser, by a list cursor). -/
structure Lexer where
  input : List Char
  pos : Nat
  start : Nat
  width : Nat
  parenDepth : Int
  curlyDepth : Int
  squareDepth : Int
  canBackup : Bool
deriving DecidableEq, Repr

/-- `lexer.next`: returns the next rune (or `none` for eof) and the new
state. -/
def Lexer.next (l : Lexer) : Option Char × Lexer :=
  match l.input[l.pos]? with
  | none => (none, { l with width := 0 })
  | some c => (some c, { l with width := 1, pos := l.pos + 1, canBackup := true })

/-- `lexer.backup`. -/
def Lexer.backup (l : Lexer) : Lexer :=
  if l.canBackup then { l with pos := l.pos - l.width, canBackup := false } else l

/-- `lexer.peek`. -/
def Lexer.peek (l : Lexer) : Option Char × Lexer :=
  let (r, l) := l.next
  (r, l.backup)

/-- `lexer.emit`: builds the token `{t, l.start, l.input[l.start:l.pos]}`
and advances `start`. -/
def Lexer.emitTok (l : Lexer) (t : TokenType) : Token × Lexer :=
  (⟨t, l.start, extract l.input l.start l.pos⟩, { l with start := l.pos })

/-- `lexer.ignore`. -/
def Lexer.ignore (l : Lexer) : Lexer := { l with start := l.pos }

/-- The error token `lexer.errorf` sends (scan terminates afterwards). -/
def Lexer.errTok (l : Lexer) (msg : List Char) : Token :=
  ⟨.error, l.start, msg⟩

/-- `lexer.accept`. -/
def Lexer.accept (l : Lexer) (valid : List Char) : Bool × Lexer :=
  let (r, l') := l.next
  match r with
  | some c => if c ∈ valid then (true, l') else (false, l'.backup)
  | none => (false, l'.backup)

/-- `lexer.acceptRun` (fuelled; each iteration consumes one rune, so any
fuel of at least remaining-input length is exact). -/
def Lexer.acceptRun (l : Lexer) (valid : List Char) : Nat → Lexer
  | 0 => l
  | fuel + 1 =>
    let (r, l') := l.next
    match r with
    | some c => if c ∈ valid then l'.acceptRun valid fuel else l'.backup
    | none => l'.backup

/-- `lexer.atTerminator`. -/
def Lexer.atTerminator (l : Lexer) : Bool × Lexer :=
  let (r, l) := l.peek
  match r with
  | none => (true, l)
  | some c =>
    if isSpace c || isEndOfLine c || isOperator c then (true, l)
    else if c == ',' || c == ':' || c == ';' || c == ')' || c == '(' ||
        c == '\x7b' || c == '\x7d' || c == '[' then (true, l)
    else (false, l)

/-! ## The state functions of the scanner -/

/-- The `lexerFn` states of `lex.go`. -/
inductive LexState where
  | any | comment | blockComment | space | identifier | quote | charConst
  | number
deriving DecidableEq, Repr

/-- One state-function invocation: tokens sent, next state (`none` = scan
over), new scanner state. -/
abbrev LexStep := List Token × Option LexState × Lexer

/-- First index of a character of `valid` in `cs` (Go `strings.IndexAny`). -/
def findIdxA (valid : List Char) : List Char → Option Nat
  | [] => none
  | c :: cs =>
    if c ∈ valid then some 0 else (findIdxA valid cs).map (· + 1)

/-- First index of the sequence `pat` in `cs` (Go `strings.Index`). -/
def indexOfSeq (pat : List Char) : List Char → Option Nat
  | [] => if pat = [] then some 0 else none
  | c :: cs =>
    if pat.isPrefixOf (c :: cs) then some 0 else (indexOfSeq pat cs).map (· + 1)

/-- Digit sets from `lex.go`. -/
def decimalDigits : List Char := "0123456789".data
/-- Hex digit set from `lex.go`. -/
def hexadecimalDigits : List Char := "0123456789abcdefABCDEF".data
/-- Octal digit set from `lex.go`. -/
def octalDigits : List Char := "01234567".data
/-- Binary digit set from `lex.go`. -/
def binaryDigits : List Char := "01".data

/-- `lexNumber`'s tail: the next rune must not be alphanumeric, else a
"bad number syntax" error; otherwise emit the number token. -/
def lexNumberFinish (l : Lexer) : LexStep :=
  let (p, l) := l.peek
  match p with
  | some c =>
    if isAlphaNumeric c then
      let (_, l) := l.next
      ([l.errTok ("bad number syntax: ".data ++ goQuote (extract l.input l.start l.pos))], none, l)
    else
      let (t, l) := l.emitTok .number
      ([t], some .any, l)
  | none =>
    let (t, l) := l.emitTok .number
    ([t], some .any, l)

/-- `lexNumber` from `lex.go`. -/
def lexNumber (l : Lexer) : LexStep :=
  let (b0, l) := l.accept ['0']
  if b0 then
    let (bx, l) := l.accept ['x', 'X']
    if bx then
      let l := l.acceptRun hexadecimalDigits (l.input.length + 1)
      let (bdot, l) := l.accept ['.']
      if bdot then
        ([l.errTok ("non-decimal number (starting with \x270x\x27) cannot contain a decimal point.".data)], none, l)
      else lexNumberFinish l
    else
      let (bb, l) := l.accept ['b', 'B']
      if bb then
        let l := l.acceptRun binaryDigits (l.input.length + 1)
        let (bdot, l) := l.accept ['.']
        if bdot then
          ([l.errTok ("non-decimal number (starting with \x270b\x27) cannot contain a decimal point.".data)], none, l)
        else lexNumberFinish l
      else
        let l := l.acceptRun octalDigits (l.input.length + 1)
        let (bdot, l) := l.accept ['.']
        if bdot then
          ([l.errTok ("non-decimal number (starting with \x270\x27) cannot contain a decimal point.".data)], none, l)
        else lexNumberFinish l
  else
    let l := l.acceptRun decimalDigits (l.input.length + 1)
    let (bdot, l) := l.accept ['.']
    if bdot then
      let l := l.acceptRun decimalDigits (l.input.length + 1)
      lexNumberFinish l
    else lexNumberFinish l

/-- The main `switch` of `lexAny` (after the square-bracket prelude). -/
def lexAnyCore (l : Lexer) : LexStep :=
  let (r, l) := l.next
  match r with
  | none =>
    if l.parenDepth > 0 then ([l.errTok "unclosed left paren".data], none, l)
    else if l.curlyDepth > 0 then ([l.errTok "unclosed right paren".data], none, l)
    else
      let (t, l) := l.emitTok .eof
      ([t], none, l)
  | some c =>
    if isSpace c || isEndOfLine c then ([], some .space, l)
    else if c == '.' || c.isDigit then ([], some .number, l.backup)
    else if isAlphaNumeric c then ([], some .identifier, l.backup)
    else if c == '/' then
      let (p1, l) := l.peek
      if p1 == some '/' then
        let (_, l) := l.next
        ([], some .comment, l)
      else
        let (p2, l) := l.peek
        if p2 == some '*' then
          let (_, l) := l.next
          ([], some .blockComment, l)
        else
          let (t, l) := l.emitTok .operator
          ([t], some .any, l)
    else if c == '=' then
      let (t, l) := l.emitTok .assignment
      ([t], some .any, l)
    else if isOperator c then
      let (t, l) := l.emitTok .operator
      ([t], some .any, l)
    else if c == ':' then
      let (t, l) := l.emitTok .composition
      ([t], some .any, l)
    else if c == ',' then
      let (t, l) := l.emitTok .seperator
      ([t], some .any, l)
    else if c == '(' then
      let (t, l) := l.emitTok .leftParen
      ([t], some .any, { l with parenDepth := l.parenDepth + 1 })
    else if c == ')' then
      let (t, l) := l.emitTok .rightParen
      let l := { l with parenDepth := l.parenDepth - 1 }
      if l.parenDepth < 0 then
        ([t, l.errTok ("unexpected right paren ".data ++ fmtRuneU (some c))], none, l)
      else ([t], some .any, l)
    else if c == '\x7b' then
      let (t, l) := l.emitTok .leftCurly
      ([t], some .any, { l with curlyDepth := l.curlyDepth + 1 })
    else if c == '\x7d' then
      let (t, l) := l.emitTok .rightCurly
      let l := { l with curlyDepth := l.curlyDepth - 1 }
      -- the source checks parenDepth here, not curlyDepth (kept faithfully)
      if l.parenDepth < 0 then
        ([t, l.errTok ("unexpected right curly ".data ++ fmtRuneU (some c))], none, l)
      else ([t], some .any, l)
    else if c == '"' then ([], some .quote, l)
    else if c == '\x27' then ([], some .charConst, l)
    else if c == '[' then
      let (rn, l) := l.peek
      match rn with
      | some c2 =>
        if c2 == '.' || c2.isDigit then
          let (t, l) := l.emitTok .leftSquare
          ([t], some .number, { l with squareDepth := l.squareDepth + 1 })
        else if c2 != ']' then
          ([l.errTok ("unexpected character: ".data ++ fmtRuneU rn ++ ", following \x27[\x27".data)], none, l)
        else
          let (_, l) := l.next
          let (t, l) := l.emitTok .varArray
          ([t], some .any, l)
      | none =>
        ([l.errTok ("unexpected character: ".data ++ fmtRuneU none ++ ", following \x27[\x27".data)], none, l)
    else if c == ';' then
      let (t, l) := l.emitTok .endline
      ([t], some .any, l)
    else if isOperator c then
      -- unreachable duplicate case kept from the source
      let (t, l) := l.emitTok .operator
      ([t], some .any, l)
    else
      ([l.errTok ("unexpected character: ".data ++ fmtRuneU (some c))], none, l)

/-- `lexAny` from `lex.go`: the square-bracket prelude (note the source
never decrements `squareDepth`), then the main switch. -/
def lexAny (l : Lexer) : LexStep :=
  if l.squareDepth > 0 then
    let (r, l) := l.next
    if r == some ']' then
      let (t, l) := l.emitTok .rightSquare
      let (ts, st, l) := lexAnyCore l
      (t :: ts, st, l)
    else
      ([l.errTok "found opening \x27[\x27 without matching \x27]\x27 for array type definition.".data], none, l)
  else lexAnyCore l

/-- `lexComment` from `lex.go`. -/
def lexComment (l : Lexer) : LexStep :=
  match findIdxA ['\r', '\n'] (l.input.drop l.pos) with
  | none => ([l.errTok "no new line after comment".data], none, l)
  | some i =>
    let l := { l with pos := l.pos + i + 1 }
    ([], some .any, l.ignore)

/-- `lexBlockComment` from `lex.go`. -/
def lexBlockComment (l : Lexer) : LexStep :=
  match indexOfSeq "*/".data (l.input.drop l.pos) with
  | none => ([l.errTok "unclosed block comment".data], none, l)
  | some i =>
    let l := { l with pos := l.pos + i + 2 }
    ([], some .any, l.ignore)

/-- The whitespace run inside `lexSpace` (fuelled; consumes one rune per
iteration). -/
def skipSpaceRun : Nat → Lexer → Lexer
  | 0, l => l
  | fuel + 1, l =>
    let (r, l) := l.peek
    match r with
    | some c =>
      if isSpace c || isEndOfLine c then skipSpaceRun fuel (l.next).2 else l
    | none => l

/-- `lexSpace` from `lex.go`. -/
def lexSpace (l : Lexer) : LexStep :=
  let l := skipSpaceRun (l.input.length + 1) l
  ([], some .any, l.ignore)

/-- The absorb loop of `lexIdentifier`; returns the terminating rune
(`none` = eof) with `backup` already applied, as in the source. -/
def identLoop : Nat → Lexer → Option Char × Lexer
  | 0, l => (none, l)
  | fuel + 1, l =>
    let (r, l) := l.next
    match r with
    | some c => if isAlphaNumeric c then identLoop fuel l else (some c, l.backup)
    | none => (none, l.backup)

/-- `lexIdentifier` from `lex.go`. -/
def lexIdentifier (l : Lexer) : LexStep :=
  let (r, l) := identLoop (l.input.length + 1) l
  let word := extract l.input l.start l.pos
  let (ok, l) := l.atTerminator
  if !ok then
    ([l.errTok ("bad character in identifier ".data ++ fmtRuneU r)], none, l)
  else
    match key word with
    | some kt =>
      let (t, l) := l.emitTok kt
      ([t], some .any, l)
    | none =>
      if word = "true".data || word = "false".data then
        let (t, l) := l.emitTok .bool
        ([t], some .any, l)
      else
        let (t, l) := l.emitTok .identifier
        ([t], some .any, l)

/-- The scan loop shared by `lexQuote` and `lexChar`; `qc` is the closing
quote character.  Returns whether the literal closed properly. -/
def quoteLoop (qc : Char) : Nat → Lexer → Bool × Lexer
  | 0, l => (false, l)
  | fuel + 1, l =>
    let (r, l) := l.next
    match r with
    | none => (false, l)
    | some c =>
      if c == '\\' then
        let (r2, l) := l.next
        match r2 with
        | none => (false, l)
        | some c2 => if c2 == '\n' then (false, l) else quoteLoop qc fuel l
      else if c == '\n' then (false, l)
      else if c == qc then (true, l)
      else quoteLoop qc fuel l

/-- `lexQuote` from `lex.go`. -/
def lexQuote (l : Lexer) : LexStep :=
  let (ok, l) := quoteLoop '"' (l.input.length + 1) l
  if ok then
    let (t, l) := l.emitTok .quote
    ([t], some .any, l)
  else ([l.errTok "unterminated string".data], none, l)

/-- `lexChar` from `lex.go`. -/
def lexChar (l : Lexer) : LexStep :=
  let (ok, l) := quoteLoop '\x27' (l.input.length + 1) l
  if ok then
    let (t, l) := l.emitTok .rawchar
    ([t], some .any, l)
  else ([l.errTok "unterminated character constant".data], none, l)

/-- Dispatch on the current `lexerFn`. -/
def lexStep : LexState → Lexer → LexStep
  | .any, l => lexAny l
  | .comment, l => lexComment l
  | .blockComment, l => lexBlockComment l
  | .space, l => lexSpace l
  | .identifier, l => lexIdentifier l
  | .quote, l => lexQuote l
  | .charConst, l => lexChar l
  | .number, l => lexNumber l

/-- `lexer.run`: iterate state functions until one returns `nil`,
collecting the tokens sent on the channel (fuelled). -/
def lexRun : Nat → LexState → Lexer → List Token
  | 0, _, _ => []
  | fuel + 1, st, l =>
    match lexStep st l with
    | (toks, none, _) => toks
    | (toks, some st', l') => toks ++ lexRun fuel st' l'

/-- The initial scanner of `lex(input)`. -/
def initLexer (input : List Char) : Lexer :=
  ⟨input, 0, 0, 0, 0, 0, 0, false⟩

/-- The complete token sequence the lexer delivers for `input` (every
state-function invocation past the first two consumes at least one rune, so
the fuel is sufficient for any input). -/
def lexAll (input : List Char) : List Token :=
  lexRun (2 * input.length + 8) .any (initLexer input)

/-! ## Schema model (`types.go`, `File.go`, `Class.go`, `Field.go`) -/

/-- The `Error` string type of `types.go`. -/
abbrev Err := List Char

/-- `DataType` from `types.go`. -/
inductive DataType where
  | invalidType
  | int8Type | int16Type | int32Type | int64Type
  | uint8Type | uint16Type | uint32Type | uint64Type
  | floatType | stringType | blobType | charType | structType
deriving DecidableEq, Repr

/-- The data of `typeBase` (`Class.go`): name and unique index; `isStruct`
tags the `Struct` vs `Class` variant.  The `dcf` back-pointer is implicit
in the `FileSt` that owns the entry. -/
structure TypeEntry where
  name : List Char
  index : Nat
  isStruct : Bool
deriving DecidableEq, Repr

/-- The data of `fieldBase` (`Field.go`).  No reachable code ever
constructs one: `File.addField` and every `AddField` method are
`TODO: Implement` stubs returning 0 or nil. -/
structure FieldEntry where
  name : List Char
  index : Nat
  keywords : List (List Char)
deriving DecidableEq, Repr

/-- `File` from `File.go`: ordered type list, name-to-type map (assoc
list), flat field list, and the embedded `keywords` slice. -/
structure FileSt where
  classes : List TypeEntry
  classByName : List (List Char × TypeEntry)
  fields : List FieldEntry
  keywords : List (List Char)
deriving DecidableEq, Repr

/-- `definedKeywords` from `Class.go` — a package-level variable; no code
ever copies it into a `File`. -/
def definedKeywords : List (List Char) :=
  ["required".data, "ram".data, "broadcast".data, "clrecv".data,
   "clsend".data, "ownrecv".data, "ownsend".data, "airecv".data, "db".data]

/-- `keywords.HasKeyword` from `types.go`. -/
def hasKeyword (k : List (List Char)) (w : List Char) : Bool :=
  match k with
  | [] => false
  | word :: rest => if w = word then true else hasKeyword rest w

/-- The method-local result of `keywords.AddKeyword` (`types.go`).  The
method has a value receiver and `k = append(k, keyword)` rebinds only the
local slice header, so the caller's keyword list is never changed; call
sites therefore discard this value, exactly as Go does. -/
def addKeywordLocal (k : List (List Char)) (w : List Char) : List (List Char) :=
  if hasKeyword k w then k else k ++ [w]

/-- `File.Hash` from `File.go` — a `TODO: Implement` stub returning 0
(uint64). -/
def fileHash (_f : FileSt) : Nat := 0

/-- Map lookup on the assoc-list model of a Go map. -/
def assocGet (m : List (List Char × TypeEntry)) (k : List Char) : Option TypeEntry :=
  match m with
  | [] => none
  | (k', v) :: rest => if k = k' then some v else assocGet rest k

/-- Modelled from the spec: `parse.go` reads `File.Structs[name]`, but no
file under `src` defines a `Structs` member (`File.go` has the single
combined `ClassByName` map).  Spec §3 gives the File one name-to-Type
mapping with names unique across Classes and Structs; `Structs[name]` is
that mapping restricted to Structs. -/
def fileStructs (f : FileSt) (name : List Char) : Option TypeEntry :=
  match assocGet f.classByName name with
  | some e => if e.isStruct then some e else none
  | none => none

/-- Modelled from the spec: `parse.go` calls `File.AddStruct(name)`, which
no file under `src` defines.  Following spec §3 (ordered Type sequence,
index = position of creation, name mapped in the File's mapping) and the
`"struct"` case of `File.AddType`, it appends a new Struct and maps its
name. -/
def fileAddStruct (f : FileSt) (name : List Char) : TypeEntry × FileSt :=
  let e : TypeEntry := ⟨name, f.classes.length, true⟩
  (e, { f with classes := f.classes ++ [e], classByName := f.classByName ++ [(name, e)] })

/-! ## Diagnostics (`parse.go` bottom) -/

/-- The `tokenName` map from `lex.go` (including its `"uint65"` typo for
`tokenUint64`); kinds absent from the map give the empty string. -/
def tokenNameOf : TokenType → List Char
  | .error => "error".data
  | .eof => "EOF".data
  | .bool => "bool".data
  | .rawchar => "char-constant".data
  | .number => "number".data
  | .quote => "quoted-string".data
  | .identifier => "identifier".data
  | .operator => "<op>".data
  | .leftParen => "(".data
  | .rightParen => ")".data
  | .leftCurly => "\x7b".data
  | .rightCurly => "\x7d".data
  | .composition => ":".data
  | .endline => ";".data
  | .seperator => ",".data
  | .assignment => "=".data
  | .varArray => "[]".data
  | .keyword => "keyword".data
  | .dclass => "dclass".data
  | .struct => "struct".data
  | .int8 => "int8".data
  | .int16 => "int16".data
  | .int32 => "int32".data
  | .int64 => "int64".data
  | .uint8 => "uint8".data
  | .uint16 => "uint16".data
  | .uint32 => "uint32".data
  | .uint64 => "uint65".data
  | .float => "float64".data
  | .string => "string".data
  | .blob => "blob".data
  | .char => "char".data
  | _ => []

/-- `token.String` from `lex.go`. -/
def tokenString (t : Token) : List Char :=
  if t.typ = .eof then "EOF".data
  else if t.typ = .error then t.val
  else if t.typ.toNat > TokenType.keyDelim.toNat then '<' :: t.val ++ ['>']
  else if t.val.length > 10 then goQuote (t.val.take 10) ++ "...".data
  else goQuote t.val

/-- `lexError` from `parse.go`. -/
def lexErrorMsg (t : Token) (line : Nat) : Err :=
  "lex error(line: ".data ++ natToDec line ++ "): ".data ++ tokenString t

/-- `parseError` from `parse.go`. -/
def parseErrorMsg (msg : List Char) (line : Nat) : Err :=
  "parse error(line: ".data ++ natToDec line ++ "): ".data ++ msg

/-- `definitionError` from `parse.go`. -/
def definitionErrorMsg (ident : List Char) (typ : TokenType) (firstUsed : Nat) : Err :=
  "definition error: used ".data ++ tokenNameOf typ ++ " \x27".data ++ ident
    ++ "\x27, but \x27".data ++ ident ++ "\x27 was never defined".data
    ++ "\n\t first used on line: ".data ++ natToDec firstUsed

/-! ## Parser (`parse.go`)

The parser's token access (`p.peek`/`p.next` over the lexer's channel with
one-token lookahead) is modelled by a cursor into the already-computed
token list, plus the lexer's `lastPos` used by `lineNumber`.  All parser
methods have value receivers in the source, so a callee's writes to
`p.errors`, `p.foundEOF` and the pending maps are lost when it returns;
each modelled method therefore returns its method-local `p.errors`
additions as a final component, and every call site discards the callee's
component, exactly as the Go code does.  Only the `File` (reached through
the shared `p.dcf` pointer) and the token cursor (through `p.lex`) survive
calls and are threaded. -/

/-- Parser-visible stream state: the lexer's input (for `lineNumber`), the
tokens not yet consumed, and `lexer.lastPos`. -/
structure PState where
  input : List Char
  toks : List Token
  lastPos : Nat
deriving DecidableEq, Repr

/-- `lexer.nextToken` as seen by the parser.  The empty-list default is
unreachable for streams produced by `lexAll` consumed by the parser (the
Go channel would block there; no reachable path reads past the terminal
token). -/
def PState.nextT (s : PState) : Token × PState :=
  match s.toks with
  | [] => (⟨.eof, s.lastPos, []⟩, s)
  | t :: rest => (t, { s with toks := rest, lastPos := t.pos })

/-- `lexer.peekToken` as seen by the parser (caches but does not consume;
`lastPos` is not updated, as in the source). -/
def PState.peekT (s : PState) : Token :=
  s.toks.headD ⟨.eof, s.lastPos, []⟩

/-- `lexer.lineNumber`. -/
def PState.lineNumber (s : PState) : Nat :=
  1 + (s.input.take s.lastPos).count '\n'

/-- Result of one parser method: continue?, stream, File, and the
method-local `p.errors` additions (discarded by callers; see above). -/
abbrev PRes := Bool × PState × FileSt × List Err

/-- `isDataTypeToken` from `lex.go`. -/
def isDataTypeToken (t : Token) : Bool :=
  t.typ.toNat > TokenType.typeDelim.toNat

/-- `typeFromToken` from `parse.go`. -/
def typeFromToken (t : Token) : DataType :=
  match t.typ with
  | .int8 => .int8Type
  | .int16 => .int16Type
  | .int32 => .int32Type
  | .int64 => .int64Type
  | .uint8 => .uint8Type
  | .uint16 => .uint16Type
  | .uint32 => .uint32Type
  | .uint64 => .uint64Type
  | .float => .floatType
  | .string => .stringType
  | .blob => .blobType
  | .char => .charType
  | .identifier => .structType
  | _ => .invalidType

/-- The consume-until loop of `expectEndline`; returns the terminating
token, the stream, and the `next` flag (true iff the loop body never ran).
Each iteration consumes a token, so the supplied fuel is sufficient. -/
def endlineLoop : Nat → Token → PState → Bool → Token × PState × Bool
  | 0, t, s, nextFlag => (t, s, nextFlag)
  | fuel + 1, t, s, nextFlag =>
    if t.typ ≠ .endline ∧ t.typ ≠ .eof ∧ t.typ ≠ .error then
      let (t', s') := s.nextT
      endlineLoop fuel t' s' false
    else (t, s, nextFlag)

/-- `parser.expectEndline` from `parse.go` (note the source sets the error
when `next` is still true, i.e. when the terminator was the very first
token read — kept faithfully). -/
def expectEndline (startline : Nat) (s : PState) (f : FileSt) : PRes :=
  let (t, s) := s.nextT
  let (t, s, nextFlag) := endlineLoop (s.toks.length + 1) t s true
  let (fail, errs) :=
    if t.typ = .eof then (true, ([] : List Err))
    else if t.typ = .error then (true, [lexErrorMsg t s.lineNumber])
    else (false, ([] : List Err))
  let errs :=
    if nextFlag || fail then
      errs ++ [parseErrorMsg "missing semicolon (;) at end of statement".data startline]
    else errs
  (!fail, s, f, errs)

/-- The consume-until loop of `expectRightCurly`. -/
def rcurlyLoop : Nat → Token → PState → Token × PState
  | 0, t, s => (t, s)
  | fuel + 1, t, s =>
    if t.typ ≠ .rightCurly ∧ t.typ ≠ .eof ∧ t.typ ≠ .error then
      let (t', s') := s.nextT
      rcurlyLoop fuel t' s'
    else (t, s)

/-- `parser.expectRightCurly` from `parse.go`. -/
def expectRightCurly (leftline : Nat) (s : PState) (f : FileSt) : PRes :=
  let (t, s) := s.nextT
  let (t, s) := rcurlyLoop (s.toks.length + 1) t s
  let (fail, errs) :=
    if t.typ = .eof then (true, ([] : List Err))
    else if t.typ = .error then (true, [lexErrorMsg t s.lineNumber])
    else (false, ([] : List Err))
  let errs :=
    if fail then
      errs ++ [parseErrorMsg
        ("missing closing curly brace (\x7d) at end of block starting on line ".data
          ++ natToDec leftline) s.lineNumber]
    else errs
  (!fail, s, f, errs)

/-- `parser.parseParameter` — a `TODO: Implement` stub in the source: it
computes the `DataType` of its type token and returns true without
consuming further tokens or touching the File. -/
def parseParameter (typTok : Token) (s : PState) (f : FileSt)
    (_isArgument : Bool) : PRes :=
  let _dataType := typeFromToken typTok
  (true, s, f, [])

/-- `parser.parseAtomic` — a `TODO: Implement` stub. -/
def parseAtomic (_ident : List Char) (s : PState) (f : FileSt) : PRes :=
  (true, s, f, [])

/-- `parser.parseMolecular` — a `TODO: Implement` stub. -/
def parseMolecular (_ident : List Char) (s : PState) (f : FileSt) : PRes :=
  (true, s, f, [])

/-- `parser.parseClass` — consumes the "dclass" token, otherwise a
`TODO: Implement` stub. -/
def parseClass (s : PState) (f : FileSt) : PRes :=
  let (_, s) := s.nextT
  (true, s, f, [])

/-- `parser.parseField` from `parse.go` (`_obj` is the `fieldAdder`; every
`AddField` implementation is a stub returning nil, and no path here calls
one). -/
def parseField (s : PState) (f : FileSt) (_obj : TypeEntry) : PRes :=
  let (t, s) := s.nextT
  if t.typ = .identifier then
    if (s.peekT).typ = .leftParen then parseAtomic t.val s f
    else if (s.peekT).typ = .composition then parseMolecular t.val s f
    else parseParameter t s f false
  else if isDataTypeToken t then
    parseParameter t s f false
  else
    let errs := [parseErrorMsg ("expecting a field, found ".data ++ tokenString t)
      s.lineNumber]
    let (ok, s, f, _) := expectEndline s.lineNumber s f
    (ok, s, f, errs)

/-- The field loop of `parseStructInner`.  The source never re-assigns the
loop variable `t` inside the loop, so the condition — computed from the
token peeked before the loop — is constant; it is passed in as `enter`.
`parseField` consumes at least one token per call, so the fuel supplied by
the caller is sufficient. -/
def structFieldLoop (enter : Bool) : Nat → PState → FileSt → TypeEntry →
    Bool × PState × FileSt
  | 0, s, f, _ => (true, s, f)
  | fuel + 1, s, f, st =>
    if enter then
      let (ok, s, f, _) := parseField s f st
      if ok then structFieldLoop enter fuel s f st else (false, s, f)
    else (true, s, f)

/-- `parser.parseStructInner` from `parse.go` (the switch after the loop
tests the stale pre-loop peek `t`, kept faithfully). -/
def parseStructInner (st : TypeEntry) (s : PState) (f : FileSt) : PRes :=
  let (t, s) := s.nextT
  if t.typ = .eof then
    (false, s, f, [parseErrorMsg "incomplete \x27struct\x27 declaration, found EOF".data
      s.lineNumber])
  else if t.typ = .error then (false, s, f, [lexErrorMsg t s.lineNumber])
  else if t.typ = .leftCurly then
    let t2 := s.peekT
    let enter := t2.typ ≠ .rightCurly ∧ t2.typ ≠ .eof ∧ t2.typ ≠ .error
    let (ok, s, f) := structFieldLoop (decide enter) (s.toks.length + 2) s f st
    if !ok then (false, s, f, [])
    else
      let (_, s) := s.nextT
      if t2.typ = .eof then
        (false, s, f, [parseErrorMsg "incomplete \x27struct\x27 definition, found EOF".data
          s.lineNumber])
      else if t2.typ = .error then (false, s, f, [lexErrorMsg t2 s.lineNumber])
      else
        let (ok2, s, f, _) := expectEndline s.lineNumber s f
        (ok2, s, f, [])
  else
    (true, s, f, [parseErrorMsg
      ("missing \x27\x7b\x27 after \x27struct\x27 declaration, found \x27".data
        ++ tokenString t ++ "\x27".data) s.lineNumber])

/-- `parser.parseKeyword` from `parse.go`.  The `p.dcf.AddKeyword(t.val)`
call hits `keywords.AddKeyword`'s value receiver (`types.go`), so the
File's keyword list is unchanged; the discarded local result is computed
here as Go computes it. -/
def parseKeyword (s : PState) (f : FileSt) : PRes :=
  let (_, s) := s.nextT
  let (t, s) := s.nextT
  if t.typ = .eof then
    (false, s, f, [parseErrorMsg "incomplete \x27keyword\x27 declaration, found EOF".data
      s.lineNumber])
  else if t.typ = .error then (false, s, f, [lexErrorMsg t s.lineNumber])
  else if t.typ = .identifier then
    let _ := addKeywordLocal f.keywords t.val
    let (ok, s, f, _) := expectEndline s.lineNumber s f
    (ok, s, f, [])
  else
    let errs := [parseErrorMsg
      ("unexpected \x27".data ++ tokenString t ++ "\x27 in \x27keyword\x27 declaration".data)
      s.lineNumber]
    let (ok, s, f, _) := expectEndline s.lineNumber s f
    (ok, s, f, errs)

/-- `parser.parseStruct` from `parse.go`. -/
def parseStruct (s : PState) (f : FileSt) : PRes :=
  let (_, s) := s.nextT
  let (t, s) := s.nextT
  if t.typ = .eof then
    (false, s, f, [parseErrorMsg "incomplete \x27struct\x27 declaration, found EOF".data
      s.lineNumber])
  else if t.typ = .error then (false, s, f, [lexErrorMsg t s.lineNumber])
  else if t.typ = .leftCurly then
    let errs := [parseErrorMsg
      "incomplete \x27struct\x27 declaration, missing identifier before definition start \x27\x7b\x27".data
      s.lineNumber]
    let (ok, s, f, _) := expectRightCurly s.lineNumber s f
    (ok, s, f, errs)
  else if t.typ = .identifier then
    if (fileStructs f t.val).isSome then
      let errs := [parseErrorMsg ("struct ".data ++ t.val ++ " already defined above".data)
        s.lineNumber]
      let (ok, s, f, _) := expectRightCurly s.lineNumber s f
      (ok, s, f, errs)
    else
      let (st, f) := fileAddStruct f t.val
      let (ok, s, f, _) := parseStructInner st s f
      (ok, s, f, [])
  else
    (true, s, f, [parseErrorMsg
      ("unexpected \x27".data ++ tokenString t ++ "\x27 in \x27struct\x27 declaration".data)
      s.lineNumber])

/-- `parser.parseDeclaration` from `parse.go`.  The dispatch requires
`t.typ == tokenIdentifier` before comparing `t.val` against "keyword",
"struct", "dclass" — but the lexer emits those words with their dedicated
token types, never as identifiers.  The default branch reports (into the
discarded local error list) and returns true without consuming the peeked
token. -/
def parseDeclaration (s : PState) (f : FileSt) : PRes :=
  let t := s.peekT
  if t.typ = .eof then (false, s, f, [])
  else if t.typ = .error then (false, s, f, [lexErrorMsg t s.lineNumber])
  else if t.typ = .identifier ∧ t.val = tokenNameOf .keyword then parseKeyword s f
  else if t.typ = .identifier ∧ t.val = tokenNameOf .struct then parseStruct s f
  else if t.typ = .identifier ∧ t.val = tokenNameOf .dclass then parseClass s f
  else if t.typ = .identifier ∨ t.typ = .leftCurly then
    let (_, s) := s.nextT
    let errs := [parseErrorMsg
      ("expected a declaration but got \x27".data ++ tokenString t ++ "\x27".data)
      s.lineNumber]
    let (ok, s, f, _) := expectRightCurly s.lineNumber s f
    (ok, s, f, errs)
  else
    (true, s, f, [parseErrorMsg
      ("expected a declaration but got \x27".data ++ tokenString t ++ "\x27".data)
      s.lineNumber])

/-- The `for p.parseDeclaration() {}` loop of `parser.parse` (fuelled;
`none` = not terminated within `fuel` iterations).  The callee's local
error list is discarded, per the value receiver. -/
def declLoop : Nat → PState → FileSt → Option (PState × FileSt)
  | 0, _, _ => none
  | fuel + 1, s, f =>
    let (more, s, f, _) := parseDeclaration s f
    if more then declLoop fuel s f else some (s, f)

/-- `parser.parse` composed with the setup in `Parse` (`parse.go`): lex the
whole input, run the declaration loop, then sweep the three pending maps
into definition errors.  The maps are the zero parser's nil maps and no
reachable code ever writes them (`parseParameter`/`parseClass` are stubs,
and writes in callees would in any case die with the value-receiver copy),
so the sweeps contribute nothing; the error list returned is `parse`'s own
`p.errors`.  `parse` returns `p.dcf` unconditionally — when it terminates.
The final `PState` is returned so theorems can observe what was consumed. -/
def parseFile (input : List Char) (fuel : Nat) :
    Option (FileSt × List Err × PState) :=
  let s : PState := ⟨input, lexAll input, 0⟩
  let f : FileSt := ⟨[], [], [], []⟩
  match declLoop fuel s f with
  | none => none
  | some (s, f) =>
    let expectedKeywords : List (List Char × Nat) := []
    let expectedStructs : List (List Char × Nat) := []
    let expectedClasses : List (List Char × Nat) := []
    let errs :=
      expectedKeywords.map (fun kv => definitionErrorMsg kv.1 .keyword kv.2)
      ++ expectedStructs.map (fun kv => definitionErrorMsg kv.1 .struct kv.2)
      ++ expectedClasses.map (fun kv => definitionErrorMsg kv.1 .dclass kv.2)
    some (f, errs, s)

/-! ## Specification predicates for the lexer theorems -/

/-- Scanner sanity: the token-start marker is at or before the cursor,
which is within the input.  Holds initially and is preserved by every
state function. -/
def INV (l : Lexer) : Prop :=
  l.start ≤ l.pos ∧ l.pos ≤ l.input.length

/-- What holds of the scanner whenever a given state function is entered
(established by the dispatching predecessor): `lexAny` always starts a
fresh token; `lexIdentifier`/`lexNumber` are entered backed-up onto the
triggering rune; `lexQuote`/`lexChar` are entered with the opening quote
consumed. -/
def EntryInv : LexState → Lexer → Prop
  | .any, l => l.start = l.pos
  | .identifier, l =>
    l.start = l.pos ∧ ∃ c, l.input[l.pos]? = some c ∧ isAlphaNumeric c
  | .number, l =>
    l.start = l.pos ∧ ∃ c, l.input[l.pos]? = some c ∧ (c = '.' ∨ c.isDigit)
  | .quote, l => l.start < l.pos
  | .charConst, l => l.start < l.pos
  | _, _ => True

/-- A control token: the lexer's `error` or `eof`. -/
def ctrlTok (t : Token) : Prop := t.typ = .error ∨ t.typ = .eof

/-- A run of non-control tokens that are exact source slices at strictly
increasing positions, starting at or after `a` and ending at or before
`b`. -/
inductive VChain (input : List Char) : Nat → List Token → Nat → Prop where
  | nil : ∀ {a b : Nat}, a ≤ b → VChain input a [] b
  | cons : ∀ {a b : Nat} {t : Token} {ts : List Token},
      ¬ ctrlTok t → a ≤ t.pos → 1 ≤ t.val.length →
      t.val = extract input t.pos (t.pos + t.val.length) →
      VChain input (t.pos + t.val.length) ts b →
      VChain input a (t :: ts) b

/-- What one state-function invocation may send: either a chain of slice
tokens (possibly empty), or such a chain followed by one final control
token together with a `nil` next state (the scan halts). -/
def StepOut (input : List Char) (a : Nat) (toks : List Token) (b : Nat)
    (stOpt : Option LexState) : Prop :=
  VChain input a toks b ∨
    ∃ vs c, toks = vs ++ [c] ∧ ctrlTok c ∧ stOpt = none ∧ VChain input a vs b

/-- The shape of a whole emitted token sequence: slice tokens at strictly
increasing positions, optionally closed by a single control token. -/
inductive EmitsChain (input : List Char) : Nat → List Token → Prop where
  | nil : ∀ {a : Nat}, EmitsChain input a []
  | ctrl : ∀ {a : Nat} {t : Token}, ctrlTok t → EmitsChain input a [t]
  | cons : ∀ {a : Nat} {t : Token} {ts : List Token},
      ¬ ctrlTok t → a ≤ t.pos → 1 ≤ t.val.length →
      t.val = extract input t.pos (t.pos + t.val.length) →
      EmitsChain input (t.pos + t.val.length) ts →
      EmitsChain input a (t :: ts)

/-- Decidable statement of claim C6's lexer half: once an error token
appears, nothing follows it. -/
def errorEndsStream : List Token → Bool
  | [] => true
  | t :: rest => if t.typ = .error then rest.isEmpty else errorEndsStream rest

/-- Decidable statement of claim C10: every non-control token's text is
the source slice of its own length at its recorded offset, and the
offsets of successive non-control tokens increase strictly (each next
token starts at or after the previous token's end, which lies strictly
beyond its start). -/
def tokensSlicedFrom (input : List Char) : Nat → List Token → Bool
  | _, [] => true
  | lo, t :: rest =>
    if t.typ = .error ∨ t.typ = .eof then tokensSlicedFrom input lo rest
    else
      decide (lo ≤ t.pos) && decide (1 ≤ t.val.length) &&
      decide (t.val = extract input t.pos (t.pos + t.val.length)) &&
      tokensSlicedFrom input (t.pos + t.val.length) rest

/-- Relation between scanner states across the token-internal scanning
primitives (`next`, `peek`, `accept`, `acceptRun`, the absorb loops):
input, start marker and the three depth counters are untouched, and the
cursor only moves forward, staying inside the input. -/
def ScanFwd (l l' : Lexer) : Prop :=
  l'.input = l.input ∧ l'.start = l.start ∧
  l'.parenDepth = l.parenDepth ∧ l'.curlyDepth = l.curlyDepth ∧
  l'.squareDepth = l.squareDepth ∧
  l.pos ≤ l'.pos ∧ (l.pos ≤ l.input.length → l'.pos ≤ l.input.length)

/-! ## Field codec for a uint32 Parameter

`Field.go` only declares `FormatData` and `ParseString` in the `Field`
interface; no implementation exists anywhere under `src`.  The functions
below are therefore modelled from the spec (§4.4): integers pack as
fixed-width little-endian bytes; `format` with field names suppressed
renders the bare value in the literal syntax the lexer accepts (a decimal
numeral); `parse` accepts that text and returns the packed bytes, and the
two are mutual inverses. -/

/-- Modelled from the spec: the 4-byte little-endian packed encoding of a
`uint32` value (`src` has no pack implementation). -/
def packU32 (v : Nat) : List Nat :=
  [v % 256, v / 256 % 256, v / 65536 % 256, v / 16777216 % 256]

/-- Modelled from the spec: little-endian decode of a 4-byte buffer. -/
def leDecodeU32 : List Nat → Nat
  | [b0, b1, b2, b3] => b0 + 256 * b1 + 65536 * b2 + 16777216 * b3
  | _ => 0

/-- Modelled from the spec: `Field.FormatData` for a `uint32` Parameter
with no Range.  With field names suppressed (`showFieldNames = false`, the
only mode claim C7 exercises) the output is the bare canonical decimal
text of the packed value; with names shown the spec prefixes `name = `. -/
def formatDataUint32 (fieldName : List Char) (data : List Nat)
    (showFieldNames : Bool) : List Char :=
  if showFieldNames then fieldName ++ " = ".data ++ natToDec (leDecodeU32 data)
  else natToDec (leDecodeU32 data)

/-- The numeric value of a decimal digit string. -/
def decValue (s : List Char) : Nat :=
  s.foldl (fun a c => a * 10 + (c.toNat - 48)) 0

/-- Modelled from the spec: `Field.ParseString` for a `uint32` Parameter
with no Range — accepts a decimal numeral denoting a value below `2^32`
and returns its packed bytes; anything else is a codec error (`none`). -/
def parseStringUint32 (s : List Char) : Option (List Nat) :=
  if s.all Char.isDigit ∧ s ≠ [] ∧ decValue s < 4294967296 then
    some (packU32 (decValue s))
  else none

/-! # Theorems -/

/-! ## Parser helper lemmas -/

/-- If one `parseDeclaration` step returns `true` without changing the
stream or the File, the `for p.parseDeclaration() {}` loop never
terminates, whatever the fuel. -/
theorem declLoop_stuck (s : PState) (f : FileSt) (e : List Err)
    (he : parseDeclaration s f = (true, s, f, e)) :
    ∀ fuel, declLoop fuel s f = none := by
  intro fuel
  induction fuel with
  | zero => rfl
  | succ n ih => simp only [declLoop, he]; exact ih

/-- `parser.parse`'s own error list is always empty when it terminates:
its only appends are the sweeps over the three pending maps, which are nil
and never written (the value receivers discard every callee append, and
the code that would populate them is an unimplemented stub). -/
theorem parseFile_errors_empty (input : List Char) (fuel : Nat) :
    ((parseFile input fuel).map (fun r => r.2.1)).getD [] = [] := by
  unfold parseFile
  cases h : declLoop fuel ⟨input, lexAll input, 0⟩ ⟨[], [], [], []⟩ with
  | none => simp [h]
  | some r => obtain ⟨s, f⟩ := r; simp [h]

/-! ## Codec helper lemmas -/

/-- Little-endian decode inverts the 4-byte pack below `2^32`. -/
theorem leDecodeU32_packU32 (v : Nat) (h : v < 4294967296) :
    leDecodeU32 (packU32 v) = v := by
  simp only [packU32, leDecodeU32]
  omega

/-- Every digit produced by `toDigitsLE` is below 10. -/
theorem toDigitsLE_lt10 : ∀ fuel n d, d ∈ toDigitsLE fuel n → d < 10 := by
  intro fuel
  induction fuel with
  | zero => intro n d hd; simp [toDigitsLE] at hd
  | succ k ih =>
    intro n d hd
    match n with
    | 0 => simp [toDigitsLE] at hd
    | m + 1 =>
      simp only [toDigitsLE, List.mem_cons] at hd
      rcases hd with h1 | h2
      · omega
      · exact ih _ _ h2

/-- `toDigitsLE` is the little-endian base-10 expansion: folding it back
recovers the number, given enough fuel. -/
theorem valLE_toDigitsLE : ∀ fuel n, n ≤ fuel →
    (toDigitsLE fuel n).foldr (fun d acc => acc * 10 + d) 0 = n := by
  intro fuel
  induction fuel with
  | zero => intro n hn; interval_cases n; rfl
  | succ k ih =>
    intro n hn
    match n with
    | 0 => rfl
    | m + 1 =>
      have hdiv : (m + 1) / 10 ≤ k := by omega
      simp only [toDigitsLE, List.foldr_cons, ih _ hdiv]
      omega

/-- `digitChar` renders a digit at ASCII `48 + d`. -/
theorem digitChar_toNat {d : Nat} (h : d < 10) : (digitChar d).toNat = 48 + d := by
  interval_cases d <;> rfl

/-- `digitChar` of a digit is an ASCII digit character. -/
theorem digitChar_isDigit {d : Nat} (h : d < 10) : (digitChar d).isDigit = true := by
  interval_cases d <;> rfl

/-- Folding the rendered digit characters equals folding the digits. -/
theorem foldr_digitChars (ds : List Nat) (h : ∀ d ∈ ds, d < 10) :
    (ds.map digitChar).foldr (fun c acc => acc * 10 + (c.toNat - 48)) 0 =
      ds.foldr (fun d acc => acc * 10 + d) 0 := by
  induction ds with
  | nil => rfl
  | cons d rest ih =>
    have hd : d < 10 := h d (List.mem_cons_self d rest)
    have hr : ∀ x ∈ rest, x < 10 := fun x hx => h x (List.mem_cons_of_mem d hx)
    simp only [List.map_cons, List.foldr_cons, ih hr, digitChar_toNat hd]
    omega

/-- Parsing the decimal text of `n` recovers `n`. -/
theorem decValue_natToDec (n : Nat) : decValue (natToDec n) = n := by
  by_cases h0 : n = 0
  · subst h0; rfl
  · unfold natToDec decValue
    rw [if_neg h0, List.foldl_reverse]
    have : ((toDigitsLE n n).map digitChar).foldr
        (fun c acc => acc * 10 + (c.toNat - 48)) 0 =
        (toDigitsLE n n).foldr (fun d acc => acc * 10 + d) 0 :=
      foldr_digitChars _ (fun d hd => toDigitsLE_lt10 n n d hd)
    rw [this, valLE_toDigitsLE n n (le_refl n)]

/-- The decimal text of `n` consists of digit characters. -/
theorem natToDec_all_digits (n : Nat) : (natToDec n).all Char.isDigit = true := by
  unfold natToDec
  by_cases h0 : n = 0
  · subst h0; rfl
  · rw [if_neg h0, List.all_reverse]
    refine List.all_eq_true.mpr ?_
    intro c hc
    obtain ⟨d, hd, rfl⟩ := List.mem_map.mp hc
    exact digitChar_isDigit (toDigitsLE_lt10 n n d hd)

/-- The decimal text of `n` is nonempty. -/
theorem natToDec_ne_nil (n : Nat) : natToDec n ≠ [] := by
  unfold natToDec
  by_cases h0 : n = 0
  · simp [h0]
  · rw [if_neg h0]
    match n, h0 with
    | m + 1, _ => simp [toDigitsLE]

/-- A `parseDeclaration` step that returns true while consuming nothing
makes `parseFile` return `none` (the Go loop spins forever) at every
fuel. -/
theorem parseFile_none_of_stuck (input : List Char)
    (h : parseDeclaration ⟨input, lexAll input, 0⟩ ⟨[], [], [], []⟩ =
      (true, ⟨input, lexAll input, 0⟩, ⟨[], [], [], []⟩,
        (parseDeclaration ⟨input, lexAll input, 0⟩ ⟨[], [], [], []⟩).2.2.2)) :
    ∀ fuel, parseFile input fuel = none := by
  intro fuel
  have hd := declLoop_stuck _ _ _ h fuel
  simp only [parseFile, hd]

/-! ## Claim theorems -/

/-- C1: the claim says `Parse` returns a non-nil `File` for every input
text.  Refuted at the failing input `struct S { int8 x; };`: its first
token has type `tokenStruct`, which matches no case of
`parseDeclaration`'s switch (the source checks `tokenIdentifier` before
comparing the text), so the default branch returns true without consuming
the peeked token and the `for p.parseDeclaration() {}` loop never
terminates — `Parse` never returns at all on this input, for every
fuel. -/
theorem c1_parse_always_returns_file_refuted :
    ∀ fuel, parseFile "struct S \x7b int8 x; \x7d;".data fuel = none :=
  parseFile_none_of_stuck _ (by decide)

/-- C2: the claim says `dclass A { B x; }` yields exactly one definition
error citing B.  Refuted: on that input the parser never terminates (the
`tokenDClass` token is peeked forever, first conjunct), and whenever
`parse` does terminate its error list — the only place definition errors
are ever created — is empty, since the pending maps are never populated
(second conjunct). -/
theorem c2_definition_error_refuted :
    (∀ fuel, parseFile "dclass A \x7b B x; \x7d".data fuel = none) ∧
    (∀ input fuel, ((parseFile input fuel).map (fun r => r.2.1)).getD [] = []) :=
  ⟨parseFile_none_of_stuck _ (by decide), parseFile_errors_empty⟩

/-- C3: the claim says parsing `struct S { int8 ; int8 y; }` recovers and
still defines the field y with exactly one parse error.  Refuted: `Parse`
never terminates on that input (first conjunct), and even calling
`parseStruct` directly on its token stream — bypassing the broken
declaration dispatch — produces a File with no fields at all
(`parseParameter` is a TODO stub and no `AddField` implementation exists),
so no definition for y is ever created (second conjunct). -/
theorem c3_recovery_refuted :
    (∀ fuel, parseFile "struct S \x7b int8 ; int8 y; \x7d".data fuel = none) ∧
    (parseStruct ⟨"struct S \x7b int8 ; int8 y; \x7d".data,
        lexAll "struct S \x7b int8 ; int8 y; \x7d".data, 0⟩
        ⟨[], [], [], []⟩).2.2.1.fields = [] :=
  ⟨parseFile_none_of_stuck _ (by decide), by decide⟩

/-- C4: the claim says the declared keyword set of every File contains the
nine built-ins, and contains "foo" after parsing `keyword foo;`.  Refuted:
the File produced by parsing the empty input (which terminates) contains
none of the nine built-ins — `definedKeywords` is a package-level variable
never copied into any File (first conjunct) — and on `keyword foo;` the
parser never terminates, the dispatch never reaching `parseKeyword`
(second conjunct); `keywords.AddKeyword` is in any case a no-op for the
caller, appending to a value-receiver copy. -/
theorem c4_keyword_set_refuted :
    ((parseFile [] 5).map (fun r => definedKeywords.map (hasKeyword r.1.keywords)) =
      some [false, false, false, false, false, false, false, false, false]) ∧
    (∀ fuel, parseFile "keyword foo;".data fuel = none) :=
  ⟨by decide, parseFile_none_of_stuck _ (by decide)⟩

/-- C5: the lexer tokenizes literals as specified: `0b110` gives exactly
one number token with that text then EOF; `3k` gives one lex error token
with message `bad number syntax: "3k"`; `(3` gives a left paren, the
number 3, then a lex error `unclosed left paren`. -/
theorem c5_literal_lexing :
    lexAll "0b110".data = [⟨.number, 0, "0b110".data⟩, ⟨.eof, 5, []⟩] ∧
    lexAll "3k".data = [⟨.error, 0, "bad number syntax: \"3k\"".data⟩] ∧
    lexAll "(3".data = [⟨.leftParen, 0, "(".data⟩, ⟨.number, 1, "3".data⟩,
      ⟨.error, 2, "unclosed left paren".data⟩] :=
  ⟨by decide, by decide, by decide⟩

/-- C7: for a uint32 Parameter with no Range, parsing the formatted text
of the packed little-endian encoding of any `v < 2^32` (field names
suppressed) returns exactly that packed encoding. -/
theorem c7_codec_roundtrip (v : Nat) (h : v < 4294967296) :
    parseStringUint32 (formatDataUint32 [] (packU32 v) false) = some (packU32 v) := by
  have hfmt : formatDataUint32 [] (packU32 v) false = natToDec v := by
    simp [formatDataUint32, leDecodeU32_packU32 v h]
  rw [hfmt]
  unfold parseStringUint32
  rw [if_pos ⟨natToDec_all_digits v, natToDec_ne_nil v,
    by rw [decValue_natToDec]; exact h⟩]
  rw [decValue_natToDec]

/-- Witness for C7 at the concrete value 3735928559. -/
theorem c7_codec_roundtrip_witness :
    3735928559 < 4294967296 ∧
    parseStringUint32 (formatDataUint32 [] (packU32 3735928559) false) =
      some (packU32 3735928559) :=
  ⟨by norm_num, c7_codec_roundtrip 3735928559 (by norm_num)⟩

/-- C8: the 64-bit schema hash is deterministic and independent of
anything but declared content — degenerately so: `File.Hash` is a TODO
stub returning 0, so any two Files (in particular the Files of two runs on
byte-identical text) hash identically. -/
theorem c8_hash_deterministic : ∀ f g : FileSt, fileHash f = fileHash g :=
  fun _ _ => rfl

/-- C9: the claim says a duplicate struct declaration produces an
"already defined above" parse error and adds no second Type entry.
Refuted end-to-end: `Parse` never terminates on such input (first
conjunct).  Called directly on the token stream of `struct A { } ;` with A
already declared, `parseStruct` does leave the File unchanged (second
conjunct) and appends the expected error — but only to its value-receiver
copy of `p.errors`, which its caller discards (third conjunct exhibits
that method-local list). -/
theorem c9_duplicate_struct_refuted :
    (∀ fuel, parseFile "struct A \x7b \x7d; struct A \x7b \x7d;".data fuel = none) ∧
    (parseStruct ⟨"struct A \x7b \x7d ;".data, lexAll "struct A \x7b \x7d ;".data, 0⟩
        ⟨[⟨"A".data, 0, true⟩], [("A".data, ⟨"A".data, 0, true⟩)], [], []⟩).2.2.1 =
      ⟨[⟨"A".data, 0, true⟩], [("A".data, ⟨"A".data, 0, true⟩)], [], []⟩ ∧
    (parseStruct ⟨"struct A \x7b \x7d ;".data, lexAll "struct A \x7b \x7d ;".data, 0⟩
        ⟨[⟨"A".data, 0, true⟩], [("A".data, ⟨"A".data, 0, true⟩)], [], []⟩).2.2.2 =
      [parseErrorMsg "struct A already defined above".data 1] :=
  ⟨parseFile_none_of_stuck _ (by decide), by decide, by decide⟩

/-! ## Lexer invariant lemmas -/

/-- `strings.IndexAny` finds an index inside the string. -/
theorem findIdxA_lt (valid : List Char) :
    ∀ cs i, findIdxA valid cs = some i → i < cs.length := by
  intro cs
  induction cs with
  | nil => intro i h; simp [findIdxA] at h
  | cons c rest ih =>
    intro i h
    by_cases hm : c ∈ valid
    · simp [findIdxA, hm] at h
      simp only [List.length_cons]
      omega
    · simp only [findIdxA, if_neg hm, Option.map_eq_some'] at h
      obtain ⟨j, hj, rfl⟩ := h
      have := ih j hj
      simp only [List.length_cons]
      omega

/-- `strings.Index` finds the whole pattern inside the string. -/
theorem indexOfSeq_le (pat : List Char) :
    ∀ cs i, indexOfSeq pat cs = some i → i + pat.length ≤ cs.length := by
  intro cs
  induction cs with
  | nil =>
    intro i h
    simp only [indexOfSeq] at h
    split at h
    · next hp => cases h; simp [hp]
    · cases h
  | cons c rest ih =>
    intro i h
    by_cases hm : pat.isPrefixOf (c :: rest)
    · simp [indexOfSeq, hm] at h
      subst h
      have := List.isPrefixOf_iff_prefix.mp hm |>.length_le
      simpa using this
    · simp only [indexOfSeq, if_neg hm, Option.map_eq_some'] at h
      obtain ⟨j, hj, rfl⟩ := h
      have := ih j hj
      simp only [List.length_cons]
      omega

theorem scanFwd_refl (l : Lexer) : ScanFwd l l :=
  ⟨rfl, rfl, rfl, rfl, rfl, le_refl _, fun h => h⟩

theorem scanFwd_trans {l1 l2 l3 : Lexer} (h1 : ScanFwd l1 l2)
    (h2 : ScanFwd l2 l3) : ScanFwd l1 l3 := by
  obtain ⟨a1, b1, c1, d1, e1, f1, g1⟩ := h1
  obtain ⟨a2, b2, c2, d2, e2, f2, g2⟩ := h2
  refine ⟨a2.trans a1, b2.trans b1, c2.trans c1, d2.trans d1, e2.trans e1,
    f1.trans f2, ?_⟩
  intro h
  have := g1 h
  have := g2 (by rw [a1]; omega)
  rw [a1] at this
  omega

theorem scanFwd_next (l : Lexer) : ScanFwd l (l.next).2 := by
  cases h : l.input[l.pos]? with
  | none =>
    simp only [Lexer.next, h]
    exact ⟨rfl, rfl, rfl, rfl, rfl, le_refl _, id⟩
  | some c =>
    have hlt : l.pos < l.input.length := (List.getElem?_eq_some.mp h).1
    simp only [Lexer.next, h]
    exact ⟨rfl, rfl, rfl, rfl, rfl, by simp, fun _ => hlt⟩

theorem next_pos_some {l : Lexer} {c : Char} (h : l.input[l.pos]? = some c) :
    (l.next).2.pos = l.pos + 1 ∧ (l.next).1 = some c := by
  simp [Lexer.next, h]

theorem next_pos_none {l : Lexer} (h : l.input[l.pos]? = none) :
    (l.next).2.pos = l.pos ∧ (l.next).1 = none := by
  simp [Lexer.next, h]

theorem scanFwd_peek (l : Lexer) : ScanFwd l (l.peek).2 ∧ (l.peek).2.pos = l.pos := by
  cases h : l.input[l.pos]? with
  | none =>
    simp only [Lexer.peek, Lexer.next, h, Lexer.backup]
    constructor
    · split
      · exact ⟨rfl, rfl, rfl, rfl, rfl, by simp, fun h => by simpa using h⟩
      · exact ⟨rfl, rfl, rfl, rfl, rfl, le_refl _, id⟩
    · split <;> simp
  | some c =>
    have hlt : l.pos < l.input.length := (List.getElem?_eq_some.mp h).1
    simp only [Lexer.peek, Lexer.next, h, Lexer.backup]
    norm_num
    exact ⟨rfl, rfl, rfl, rfl, rfl, le_refl _, id⟩

theorem scanFwd_accept (l : Lexer) (v : List Char) : ScanFwd l (l.accept v).2 := by
  cases h : l.input[l.pos]? with
  | none =>
    simp only [Lexer.accept, Lexer.next, h, Lexer.backup]
    split
    · exact ⟨rfl, rfl, rfl, rfl, rfl, by simp, fun h => by simpa using h⟩
    · exact ⟨rfl, rfl, rfl, rfl, rfl, le_refl _, id⟩
  | some c =>
    have hlt : l.pos < l.input.length := (List.getElem?_eq_some.mp h).1
    by_cases hm : c ∈ v
    · simp only [Lexer.accept, Lexer.next, h, if_pos hm]
      exact ⟨rfl, rfl, rfl, rfl, rfl, by simp, fun _ => hlt⟩
    · simp only [Lexer.accept, Lexer.next, h, if_neg hm, Lexer.backup]
      norm_num
      exact ⟨rfl, rfl, rfl, rfl, rfl, le_refl _, id⟩

theorem accept_pos_of_mem {l : Lexer} {c : Char} {v : List Char}
    (h : l.input[l.pos]? = some c) (hm : c ∈ v) :
    (l.accept v).1 = true ∧ (l.accept v).2.pos = l.pos + 1 := by
  simp [Lexer.accept, Lexer.next, h, hm]

theorem accept_pos_of_not_mem {l : Lexer} {c : Char} {v : List Char}
    (h : l.input[l.pos]? = some c) (hm : c ∉ v) :
    (l.accept v).1 = false ∧ (l.accept v).2.pos = l.pos := by
  simp [Lexer.accept, Lexer.next, h, hm, Lexer.backup]

theorem accept_pos_of_none {l : Lexer} {v : List Char}
    (h : l.input[l.pos]? = none) :
    (l.accept v).1 = false ∧ (l.accept v).2.pos = l.pos := by
  simp only [Lexer.accept, Lexer.next, h, Lexer.backup]
  split <;> simp

theorem scanFwd_acceptRun (v : List Char) :
    ∀ fuel (l : Lexer), ScanFwd l (l.acceptRun v fuel) := by
  intro fuel
  induction fuel with
  | zero => intro l; exact scanFwd_refl _
  | succ k ih =>
    intro l
    cases h : l.input[l.pos]? with
    | none =>
      simp only [Lexer.acceptRun, Lexer.next, h, Lexer.backup]
      split
      · exact ⟨rfl, rfl, rfl, rfl, rfl, by simp, fun h => by simpa using h⟩
      · exact ⟨rfl, rfl, rfl, rfl, rfl, le_refl _, id⟩
    | some c =>
      have hlt : l.pos < l.input.length := (List.getElem?_eq_some.mp h).1
      by_cases hm : c ∈ v
      · simp only [Lexer.acceptRun, Lexer.next, h, if_pos hm]
        refine scanFwd_trans ?_
          (ih { l with width := 1, pos := l.pos + 1, canBackup := true })
        exact ⟨rfl, rfl, rfl, rfl, rfl, by simp, fun _ => hlt⟩
      · simp only [Lexer.acceptRun, Lexer.next, h, if_neg hm, Lexer.backup]
        norm_num
        exact ⟨rfl, rfl, rfl, rfl, rfl, le_refl _, id⟩

theorem acceptRun_pos_of_mem (fuel : Nat) {l : Lexer} {c : Char} {v : List Char}
    (h : l.input[l.pos]? = some c) (hm : c ∈ v) (hf : 1 ≤ fuel) :
    l.pos + 1 ≤ (l.acceptRun v fuel).pos := by
  match fuel, hf with
  | k + 1, _ =>
    simp only [Lexer.acceptRun, Lexer.next, h, if_pos hm]
    have := (scanFwd_acceptRun v k
      { l with width := 1, pos := l.pos + 1, canBackup := true }).2.2.2.2.2.1
    simpa using this

theorem peek_fst (l : Lexer) : (l.peek).1 = l.input[l.pos]? := by
  cases h : l.input[l.pos]? <;>
    simp [Lexer.peek, Lexer.next, Lexer.backup, h]

theorem scanFwd_skipSpaceRun : ∀ fuel (l : Lexer), ScanFwd l (skipSpaceRun fuel l) := by
  intro fuel
  induction fuel with
  | zero => intro l; exact scanFwd_refl _
  | succ k ih =>
    intro l
    rcases hp : l.peek with ⟨r, l1⟩
    have h1 : ScanFwd l l1 := by have := (scanFwd_peek l).1; rwa [hp] at this
    simp only [skipSpaceRun, hp]
    cases r with
    | none => exact h1
    | some c =>
      by_cases hs : (isSpace c || isEndOfLine c) = true
      · simp only [hs, if_true]
        exact scanFwd_trans h1 (scanFwd_trans (scanFwd_next l1) (ih _))
      · simp only [hs]
        exact h1

theorem scanFwd_identLoop : ∀ fuel (l : Lexer), ScanFwd l (identLoop fuel l).2 := by
  intro fuel
  induction fuel with
  | zero => intro l; exact scanFwd_refl _
  | succ k ih =>
    intro l
    cases h : l.input[l.pos]? with
    | none =>
      simp only [identLoop, Lexer.next, h, Lexer.backup]
      split
      · exact ⟨rfl, rfl, rfl, rfl, rfl, by simp, fun h => by simpa using h⟩
      · exact ⟨rfl, rfl, rfl, rfl, rfl, le_refl _, id⟩
    | some c =>
      have hlt : l.pos < l.input.length := (List.getElem?_eq_some.mp h).1
      by_cases ha : isAlphaNumeric c = true
      · simp only [identLoop, Lexer.next, h, ha, if_true]
        refine scanFwd_trans ?_
          (ih { l with width := 1, pos := l.pos + 1, canBackup := true })
        exact ⟨rfl, rfl, rfl, rfl, rfl, by simp, fun _ => hlt⟩
      · simp only [identLoop, Lexer.next, h, ha, Lexer.backup]
        norm_num
        exact ⟨rfl, rfl, rfl, rfl, rfl, le_refl _, id⟩

theorem identLoop_pos_of_alnum {l : Lexer} {c : Char} {fuel : Nat}
    (h : l.input[l.pos]? = some c) (ha : isAlphaNumeric c = true) (hf : 1 ≤ fuel) :
    l.pos + 1 ≤ (identLoop fuel l).2.pos := by
  match fuel, hf with
  | k + 1, _ =>
    simp only [identLoop, Lexer.next, h, ha, if_true]
    have := (scanFwd_identLoop k
      { l with width := 1, pos := l.pos + 1, canBackup := true }).2.2.2.2.2.1
    simpa using this

theorem scanFwd_quoteLoop (qc : Char) :
    ∀ fuel (l : Lexer), ScanFwd l (quoteLoop qc fuel l).2 := by
  intro fuel
  induction fuel with
  | zero => intro l; exact scanFwd_refl _
  | succ k ih =>
    intro l
    rcases hn : l.next with ⟨r, l1⟩
    have h1 : ScanFwd l l1 := by have := scanFwd_next l; rwa [hn] at this
    simp only [quoteLoop, hn]
    cases r with
    | none => exact h1
    | some c =>
      by_cases hbs : (c == '\\') = true
      · simp only [hbs, if_true]
        rcases hn2 : l1.next with ⟨r2, l2⟩
        have h2 : ScanFwd l1 l2 := by have := scanFwd_next l1; rwa [hn2] at this
        cases r2 with
        | none => exact scanFwd_trans h1 h2
        | some c2 =>
          by_cases hnl : (c2 == '\n') = true
          · simp only [hnl, if_true]
            exact scanFwd_trans h1 h2
          · simp only [hnl, if_false]
            exact scanFwd_trans h1 (scanFwd_trans h2 (ih _))
      · simp only [hbs, if_false]
        by_cases hnl : (c == '\n') = true
        · simp only [hnl, if_true]
          exact h1
        · simp only [hnl, if_false]
          by_cases hqc : (c == qc) = true
          · simp only [hqc, if_true]
            exact h1
          · simp only [hqc, if_false]
            exact scanFwd_trans h1 (ih _)

theorem snd_ite_pair {α β : Type} {P : Prop} [Decidable P] (x y : α) (z : β) :
    (if P then (x, z) else (y, z)).2 = z := by
  split <;> rfl

theorem atTerminator_state (l : Lexer) :
    ScanFwd l (l.atTerminator).2 ∧ (l.atTerminator).2.pos = l.pos := by
  rcases hp : l.peek with ⟨r, l1⟩
  have h1 : ScanFwd l l1 := by have := (scanFwd_peek l).1; rwa [hp] at this
  have h2 : l1.pos = l.pos := by have := (scanFwd_peek l).2; rwa [hp] at this
  cases r with
  | none => simp only [Lexer.atTerminator, hp]; exact ⟨h1, h2⟩
  | some c =>
    simp only [Lexer.atTerminator, hp]
    constructor
    · split
      · exact h1
      · rw [snd_ite_pair]; exact h1
    · split
      · exact h2
      · rw [snd_ite_pair]; exact h2

/-- Peeling one arm of an if-chain returning options. -/
theorem ite_some_elim {P : Prop} [Decidable P] {x kt : TokenType}
    {o : Option TokenType}
    (h : (if P then some x else o) = some kt)
    (hx : x ≠ .error ∧ x ≠ .eof)
    (ho : o = some kt → kt ≠ .error ∧ kt ≠ .eof) :
    kt ≠ .error ∧ kt ≠ .eof := by
  split at h
  · injection h with h2
    subst h2
    exact hx
  · exact ho h

/-- The `key` map only maps to keyword and data-type token kinds, never to
control tokens. -/
theorem key_ne_ctrl {w : List Char} {kt : TokenType} (h : key w = some kt) :
    kt ≠ .error ∧ kt ≠ .eof := by
  unfold key at h
  iterate 15 (refine ite_some_elim h ⟨by decide, by decide⟩ (fun h => ?_))
  cases h

/-! ## Token-chain machinery -/

theorem VChain.mono_left {input : List Char} {a a' b : Nat} {ts : List Token}
    (h : VChain input a ts b) (ha : a' ≤ a) : VChain input a' ts b := by
  cases h with
  | nil hab => exact .nil (ha.trans hab)
  | cons hc hpos hlen hsl htail => exact .cons hc (ha.trans hpos) hlen hsl htail

theorem VChain.mono_right {input : List Char} {a b b' : Nat} {ts : List Token}
    (h : VChain input a ts b) (hb : b ≤ b') : VChain input a ts b' := by
  induction h with
  | nil hab => exact .nil (hab.trans hb)
  | cons hc hpos hlen hsl _ ih => exact .cons hc hpos hlen hsl (ih hb)

theorem VChain.append {input : List Char} {a b c : Nat} {ts1 ts2 : List Token}
    (h1 : VChain input a ts1 b) (h2 : VChain input b ts2 c) :
    VChain input a (ts1 ++ ts2) c := by
  induction h1 with
  | nil hab => exact h2.mono_left hab
  | cons hc hpos hlen hsl _ ih => exact .cons hc hpos hlen hsl (ih h2)

theorem EmitsChain.relaxStart {input : List Char} {a a' : Nat} {ts : List Token}
    (h : EmitsChain input a ts) (ha : a' ≤ a) : EmitsChain input a' ts := by
  cases h with
  | nil => exact .nil
  | ctrl hc => exact .ctrl hc
  | cons hc hpos hlen hsl htail => exact .cons hc (ha.trans hpos) hlen hsl htail

theorem EmitsChain.prepend {input : List Char} {a b : Nat} {ts1 ts2 : List Token}
    (h1 : VChain input a ts1 b) (h2 : EmitsChain input b ts2) :
    EmitsChain input a (ts1 ++ ts2) := by
  induction h1 with
  | nil hab => exact h2.relaxStart hab
  | cons hc hpos hlen hsl _ ih => exact .cons hc hpos hlen hsl (ih h2)

theorem VChain.toEmits {input : List Char} {a b : Nat} {ts : List Token}
    (h : VChain input a ts b) : EmitsChain input a ts := by
  induction h with
  | nil _ => exact .nil
  | cons hc hpos hlen hsl _ ih => exact .cons hc hpos hlen hsl ih

/-- A single emitted source-slice token between `a` and `p2`. -/
theorem vchain_single (input : List Char) (ty : TokenType) (a p2 : Nat)
    (h1 : ty ≠ .error) (h2 : ty ≠ .eof) (hap : a < p2) (hp2 : p2 ≤ input.length) :
    VChain input a [⟨ty, a, extract input a p2⟩] p2 := by
  have hlen : (extract input a p2).length = p2 - a := by
    simp only [extract, List.length_take, List.length_drop]
    omega
  refine VChain.cons ?_ (le_refl _) ?_ ?_ (VChain.nil ?_)
  · dsimp only [ctrlTok]
    intro hc
    rcases hc with hc | hc
    · exact h1 hc
    · exact h2 hc
  · dsimp only
    rw [hlen]; omega
  · show extract input a p2 = extract input a (a + (extract input a p2).length)
    rw [hlen]
    congr 1
    omega
  · dsimp only
    rw [hlen]; omega

/-! ## Per-state step lemmas -/

theorem lexComment_ok (l : Lexer) (hInv : INV l) :
    (lexComment l).2.2.input = l.input ∧ INV (lexComment l).2.2 ∧
    (∀ st', (lexComment l).2.1 = some st' → EntryInv st' (lexComment l).2.2) ∧
    StepOut l.input l.start (lexComment l).1 (lexComment l).2.2.start
      (lexComment l).2.1 := by
  obtain ⟨hsp, hpl⟩ := hInv
  cases h : findIdxA ['\r', '\n'] (l.input.drop l.pos) with
  | none =>
    have hred : lexComment l =
        ([l.errTok "no new line after comment".data], none, l) := by
      unfold lexComment
      rw [h]
    rw [hred]
    exact ⟨rfl, ⟨hsp, hpl⟩, by simp,
      Or.inr ⟨[], _, rfl, Or.inl rfl, rfl, VChain.nil (le_refl _)⟩⟩
  | some i =>
    have hi : i < (l.input.drop l.pos).length := findIdxA_lt _ _ _ h
    rw [List.length_drop] at hi
    have hred : lexComment l = ([], some .any,
        { l with pos := l.pos + i + 1, start := l.pos + i + 1 }) := by
      unfold lexComment
      rw [h]
      rfl
    rw [hred]
    refine ⟨rfl, ⟨le_refl _, ?_⟩, ?_, Or.inl (VChain.nil ?_)⟩
    · dsimp only; omega
    · intro st' hst'; cases hst'; rfl
    · dsimp only; omega

theorem lexBlockComment_ok (l : Lexer) (hInv : INV l) :
    (lexBlockComment l).2.2.input = l.input ∧ INV (lexBlockComment l).2.2 ∧
    (∀ st', (lexBlockComment l).2.1 = some st' →
      EntryInv st' (lexBlockComment l).2.2) ∧
    StepOut l.input l.start (lexBlockComment l).1 (lexBlockComment l).2.2.start
      (lexBlockComment l).2.1 := by
  obtain ⟨hsp, hpl⟩ := hInv
  cases h : indexOfSeq "*/".data (l.input.drop l.pos) with
  | none =>
    have hred : lexBlockComment l =
        ([l.errTok "unclosed block comment".data], none, l) := by
      unfold lexBlockComment
      rw [h]
    rw [hred]
    exact ⟨rfl, ⟨hsp, hpl⟩, by simp,
      Or.inr ⟨[], _, rfl, Or.inl rfl, rfl, VChain.nil (le_refl _)⟩⟩
  | some i =>
    have hi : i + 2 ≤ (l.input.drop l.pos).length := indexOfSeq_le _ _ _ h
    rw [List.length_drop] at hi
    have hred : lexBlockComment l = ([], some .any,
        { l with pos := l.pos + i + 2, start := l.pos + i + 2 }) := by
      unfold lexBlockComment
      rw [h]
      rfl
    rw [hred]
    refine ⟨rfl, ⟨le_refl _, ?_⟩, ?_, Or.inl (VChain.nil ?_)⟩
    · dsimp only; omega
    · intro st' hst'; cases hst'; rfl
    · dsimp only; omega

theorem lexSpace_ok (l : Lexer) (hInv : INV l) :
    (lexSpace l).2.2.input = l.input ∧ INV (lexSpace l).2.2 ∧
    (∀ st', (lexSpace l).2.1 = some st' → EntryInv st' (lexSpace l).2.2) ∧
    StepOut l.input l.start (lexSpace l).1 (lexSpace l).2.2.start
      (lexSpace l).2.1 := by
  obtain ⟨hsp, hpl⟩ := hInv
  obtain ⟨hin, hst, _, _, _, hpos, hlen⟩ := scanFwd_skipSpaceRun (l.input.length + 1) l
  have hred : lexSpace l = ([], some .any,
      (skipSpaceRun (l.input.length + 1) l).ignore) := rfl
  rw [hred]
  simp only [Lexer.ignore]
  refine ⟨hin, ⟨le_refl _, ?_⟩, ?_, Or.inl (VChain.nil ?_)⟩
  · dsimp only; rw [hin]; exact hlen hpl
  · intro st' hst'; cases hst'; rfl
  · dsimp only; omega

theorem lexQuote_ok (l : Lexer) (hInv : INV l) (hE : l.start < l.pos) :
    (lexQuote l).2.2.input = l.input ∧ INV (lexQuote l).2.2 ∧
    (∀ st', (lexQuote l).2.1 = some st' → EntryInv st' (lexQuote l).2.2) ∧
    StepOut l.input l.start (lexQuote l).1 (lexQuote l).2.2.start
      (lexQuote l).2.1 := by
  obtain ⟨hsp, hpl⟩ := hInv
  rcases hq : quoteLoop '"' (l.input.length + 1) l with ⟨ok, l1⟩
  have hsc : ScanFwd l l1 := by
    have := scanFwd_quoteLoop '"' (l.input.length + 1) l; rwa [hq] at this
  obtain ⟨hin, hst, _, _, _, hpos, hlen⟩ := hsc
  cases ok with
  | false =>
    have hred : lexQuote l = ([l1.errTok "unterminated string".data], none, l1) := by
      unfold lexQuote
      rw [hq]
      rfl
    rw [hred]
    refine ⟨hin, ⟨?_, ?_⟩, by simp, Or.inr ⟨[], _, rfl, Or.inl rfl, rfl,
      VChain.nil hst.ge⟩⟩
    · dsimp only; omega
    · dsimp only; rw [hin]; exact hlen hpl
  | true =>
    have hp1 : l1.pos ≤ l.input.length := hlen hpl
    have hred : lexQuote l =
        ([⟨.quote, l1.start, extract l1.input l1.start l1.pos⟩], some .any,
          { l1 with start := l1.pos }) := by
      unfold lexQuote
      rw [hq]
      rfl
    rw [hred]
    refine ⟨hin, ⟨le_refl _, ?_⟩, ?_, Or.inl ?_⟩
    · dsimp only; rw [hin]; exact hp1
    · intro st' hst'; cases hst'; rfl
    · dsimp only
      rw [hin, hst]
      exact vchain_single l.input .quote l.start l1.pos (by decide) (by decide)
        (by omega) hp1

theorem lexChar_ok (l : Lexer) (hInv : INV l) (hE : l.start < l.pos) :
    (lexChar l).2.2.input = l.input ∧ INV (lexChar l).2.2 ∧
    (∀ st', (lexChar l).2.1 = some st' → EntryInv st' (lexChar l).2.2) ∧
    StepOut l.input l.start (lexChar l).1 (lexChar l).2.2.start
      (lexChar l).2.1 := by
  obtain ⟨hsp, hpl⟩ := hInv
  rcases hq : quoteLoop '\x27' (l.input.length + 1) l with ⟨ok, l1⟩
  have hsc : ScanFwd l l1 := by
    have := scanFwd_quoteLoop '\x27' (l.input.length + 1) l; rwa [hq] at this
  obtain ⟨hin, hst, _, _, _, hpos, hlen⟩ := hsc
  cases ok with
  | false =>
    have hred : lexChar l =
        ([l1.errTok "unterminated character constant".data], none, l1) := by
      unfold lexChar
      rw [hq]
      rfl
    rw [hred]
    refine ⟨hin, ⟨?_, ?_⟩, by simp, Or.inr ⟨[], _, rfl, Or.inl rfl, rfl,
      VChain.nil hst.ge⟩⟩
    · dsimp only; omega
    · dsimp only; rw [hin]; exact hlen hpl
  | true =>
    have hp1 : l1.pos ≤ l.input.length := hlen hpl
    have hred : lexChar l =
        ([⟨.rawchar, l1.start, extract l1.input l1.start l1.pos⟩], some .any,
          { l1 with start := l1.pos }) := by
      unfold lexChar
      rw [hq]
      rfl
    rw [hred]
    refine ⟨hin, ⟨le_refl _, ?_⟩, ?_, Or.inl ?_⟩
    · dsimp only; rw [hin]; exact hp1
    · intro st' hst'; cases hst'; rfl
    · dsimp only
      rw [hin, hst]
      exact vchain_single l.input .rawchar l.start l1.pos (by decide) (by decide)
        (by omega) hp1

theorem accept_true_pos {l : Lexer} {v : List Char}
    (h : (l.accept v).1 = true) : (l.accept v).2.pos = l.pos + 1 := by
  cases hc : l.input[l.pos]? with
  | none => rw [(accept_pos_of_none hc).1] at h; cases h
  | some c =>
    by_cases hm : c ∈ v
    · exact (accept_pos_of_mem hc hm).2
    · rw [(accept_pos_of_not_mem hc hm).1] at h; cases h

theorem accept_false_pos {l : Lexer} {v : List Char}
    (h : (l.accept v).1 = false) : (l.accept v).2.pos = l.pos := by
  cases hc : l.input[l.pos]? with
  | none => exact (accept_pos_of_none hc).2
  | some c =>
    by_cases hm : c ∈ v
    · rw [(accept_pos_of_mem hc hm).1] at h; cases h
    · exact (accept_pos_of_not_mem hc hm).2

theorem acceptRun_pos_of_not_mem {l : Lexer} {c : Char} {v : List Char}
    (h : l.input[l.pos]? = some c) (hm : c ∉ v) :
    ∀ fuel, (l.acceptRun v fuel).pos = l.pos := by
  intro fuel
  cases fuel with
  | zero => rfl
  | succ k =>
    simp only [Lexer.acceptRun, Lexer.next, h, if_neg hm, Lexer.backup]
    norm_num

/-- An ASCII digit is a member of the lexer's decimal digit set. -/
theorem isDigit_mem_decimal {c : Char} (h : c.isDigit = true) : c ∈ decimalDigits := by
  have hb : 48 ≤ c.toNat ∧ c.toNat ≤ 57 := by
    simp only [Char.isDigit, ge_iff_le, Bool.and_eq_true, decide_eq_true_eq] at h
    exact ⟨UInt32.le_toNat_of_le (by norm_num) h.1,
      UInt32.toNat_le_of_le (by norm_num) h.2⟩
  obtain ⟨h1, h2⟩ := hb
  obtain ⟨n, hn⟩ : ∃ n, c.toNat = n := ⟨_, rfl⟩
  rw [hn] at h1 h2
  have hc : c = Char.ofNat c.toNat := (Char.ofNat_toNat c).symm
  rw [hn] at hc
  interval_cases n <;> (rw [hc]; decide)

theorem lexIdentifier_ok (l : Lexer) (hInv : INV l)
    (hE : EntryInv .identifier l) :
    (lexIdentifier l).2.2.input = l.input ∧ INV (lexIdentifier l).2.2 ∧
    (∀ st', (lexIdentifier l).2.1 = some st' → EntryInv st' (lexIdentifier l).2.2) ∧
    StepOut l.input l.start (lexIdentifier l).1 (lexIdentifier l).2.2.start
      (lexIdentifier l).2.1 := by
  obtain ⟨hsp0, hpl⟩ := hInv
  obtain ⟨hsp, c, hc, hac⟩ := hE
  rcases hi : identLoop (l.input.length + 1) l with ⟨r, l1⟩
  have hsc : ScanFwd l l1 := by
    have := scanFwd_identLoop (l.input.length + 1) l; rwa [hi] at this
  have hp1 : l.pos + 1 ≤ l1.pos := by
    have := identLoop_pos_of_alnum hc hac
      (Nat.succ_le_succ (Nat.zero_le l.input.length))
    rwa [hi] at this
  obtain ⟨hin, hst, _, _, _, hpos, hlen⟩ := hsc
  rcases hat : l1.atTerminator with ⟨ok, l2⟩
  have hsc2 := atTerminator_state l1
  rw [hat] at hsc2
  dsimp only at hsc2
  obtain ⟨⟨hin2, hst2, _, _, _, _, _⟩, hpos2⟩ := hsc2
  have hl2len : l2.pos ≤ l.input.length := by rw [hpos2]; exact hlen hpl
  have hlt2 : l.start < l2.pos := by rw [hpos2]; omega
  have hemit : ∀ ty : TokenType, ty ≠ .error → ty ≠ .eof →
      (({ l2 with start := l2.pos } : Lexer).input = l.input ∧
       INV ({ l2 with start := l2.pos } : Lexer) ∧
       (∀ st', (some LexState.any : Option LexState) = some st' →
         EntryInv st' ({ l2 with start := l2.pos } : Lexer)) ∧
       StepOut l.input l.start [⟨ty, l2.start, extract l2.input l2.start l2.pos⟩]
         ({ l2 with start := l2.pos } : Lexer).start (some LexState.any)) := by
    intro ty h1 h2
    refine ⟨hin2.trans hin, ⟨le_refl _, ?_⟩, ?_, Or.inl ?_⟩
    · show l2.pos ≤ l2.input.length
      rw [hin2, hin]
      exact hl2len
    · intro st' hst'; cases hst'; rfl
    · show VChain l.input l.start
        [⟨ty, l2.start, extract l2.input l2.start l2.pos⟩] l2.pos
      rw [hin2, hin, hst2, hst]
      exact vchain_single l.input ty l.start l2.pos h1 h2 hlt2 hl2len
  cases ok with
  | false =>
    have hred : lexIdentifier l =
        ([l2.errTok ("bad character in identifier ".data ++ fmtRuneU r)], none, l2) := by
      unfold lexIdentifier
      simp [hi, hat]
    rw [hred]
    refine ⟨hin2.trans hin, ⟨?_, ?_⟩, by simp,
      Or.inr ⟨[], _, rfl, Or.inl rfl, rfl, VChain.nil ?_⟩⟩
    · show l2.start ≤ l2.pos
      omega
    · show l2.pos ≤ l2.input.length
      rw [hin2, hin]
      exact hl2len
    · show l.start ≤ l2.start
      omega
  | true =>
    cases hk : key (extract l1.input l1.start l1.pos) with
    | some kt =>
      obtain ⟨hk1, hk2⟩ := key_ne_ctrl hk
      have hred : lexIdentifier l =
          ([⟨kt, l2.start, extract l2.input l2.start l2.pos⟩], some .any,
            { l2 with start := l2.pos }) := by
        unfold lexIdentifier
        simp [hi, hat, hk, Lexer.emitTok]
      rw [hred]
      exact hemit kt hk1 hk2
    | none =>
      by_cases hw : ((extract l1.input l1.start l1.pos) = "true".data ∨
          (extract l1.input l1.start l1.pos) = "false".data)
      · have hred : lexIdentifier l =
            ([⟨.bool, l2.start, extract l2.input l2.start l2.pos⟩], some .any,
              { l2 with start := l2.pos }) := by
          unfold lexIdentifier
          rcases hw with hw | hw <;> (simp [hi, hat, hk, hw, Lexer.emitTok]; try rfl)
        rw [hred]
        exact hemit .bool (by decide) (by decide)
      · have hred : lexIdentifier l =
            ([⟨.identifier, l2.start, extract l2.input l2.start l2.pos⟩], some .any,
              { l2 with start := l2.pos }) := by
          unfold lexIdentifier
          push_neg at hw
          simp [hi, hat, hk, hw.1, hw.2, Lexer.emitTok]
        rw [hred]
        exact hemit .identifier (by decide) (by decide)

theorem lexNumberFinish_ok (l : Lexer) (hpl : l.pos ≤ l.input.length)
    (hsp : l.start < l.pos) :
    (lexNumberFinish l).2.2.input = l.input ∧ INV (lexNumberFinish l).2.2 ∧
    (∀ st', (lexNumberFinish l).2.1 = some st' →
      EntryInv st' (lexNumberFinish l).2.2) ∧
    StepOut l.input l.start (lexNumberFinish l).1 (lexNumberFinish l).2.2.start
      (lexNumberFinish l).2.1 := by
  rcases hp : l.peek with ⟨p, l1⟩
  have hsc : ScanFwd l l1 := by have := (scanFwd_peek l).1; rwa [hp] at this
  have hpp : l1.pos = l.pos := by have := (scanFwd_peek l).2; rwa [hp] at this
  obtain ⟨hin, hst, _, _, _, _, _⟩ := hsc
  have hemitN :
      (({ l1 with start := l1.pos } : Lexer).input = l.input ∧
       INV ({ l1 with start := l1.pos } : Lexer) ∧
       (∀ st', (some LexState.any : Option LexState) = some st' →
         EntryInv st' ({ l1 with start := l1.pos } : Lexer)) ∧
       StepOut l.input l.start
         [⟨.number, l1.start, extract l1.input l1.start l1.pos⟩]
         ({ l1 with start := l1.pos } : Lexer).start (some LexState.any)) := by
    refine ⟨hin, ⟨le_refl _, ?_⟩, ?_, Or.inl ?_⟩
    · show l1.pos ≤ l1.input.length
      rw [hin, hpp]
      exact hpl
    · intro st' hst'; cases hst'; rfl
    · show VChain l.input l.start
        [⟨.number, l1.start, extract l1.input l1.start l1.pos⟩] l1.pos
      rw [hin, hst]
      exact vchain_single l.input .number l.start l1.pos (by decide) (by decide)
        (by omega) (by rw [hpp]; exact hpl)
  cases p with
  | none =>
    have hred : lexNumberFinish l =
        ([⟨.number, l1.start, extract l1.input l1.start l1.pos⟩], some .any,
          { l1 with start := l1.pos }) := by
      unfold lexNumberFinish
      rw [hp]
      rfl
    rw [hred]
    exact hemitN
  | some c =>
    by_cases hac : isAlphaNumeric c = true
    · rcases hn : l1.next with ⟨r2, l2⟩
      have hsc2 : ScanFwd l1 l2 := by have := scanFwd_next l1; rwa [hn] at this
      obtain ⟨hin2, hst2, _, _, _, hpos2, hlen2⟩ := hsc2
      have hred : lexNumberFinish l =
          ([l2.errTok ("bad number syntax: ".data ++
            goQuote (extract l2.input l2.start l2.pos))], none, l2) := by
        unfold lexNumberFinish
        rw [hp]
        dsimp only
        simp only [hac, if_true]
        rw [hn]
      rw [hred]
      refine ⟨hin2.trans hin, ⟨?_, ?_⟩, by simp,
        Or.inr ⟨[], _, rfl, Or.inl rfl, rfl, VChain.nil ?_⟩⟩
      · show l2.start ≤ l2.pos
        omega
      · show l2.pos ≤ l2.input.length
        rw [hin2, hin]
        have := hlen2 (by rw [hin, hpp]; exact hpl)
        rw [hin] at this
        exact this
      · show l.start ≤ l2.start
        omega
    · have hred : lexNumberFinish l =
          ([⟨.number, l1.start, extract l1.input l1.start l1.pos⟩], some .any,
            { l1 with start := l1.pos }) := by
        unfold lexNumberFinish
        rw [hp]
        dsimp only
        simp only [hac, if_false]
        rfl
      rw [hred]
      exact hemitN

/-- Lifts `lexNumberFinish_ok` across the digit-scanning prefix. -/
theorem lexNumberFinish_lift {l0 l1 : Lexer} (hsc : ScanFwd l0 l1)
    (hgt : l0.start < l1.pos) (hpl : l0.pos ≤ l0.input.length) :
    (lexNumberFinish l1).2.2.input = l0.input ∧ INV (lexNumberFinish l1).2.2 ∧
    (∀ st', (lexNumberFinish l1).2.1 = some st' →
      EntryInv st' (lexNumberFinish l1).2.2) ∧
    StepOut l0.input l0.start (lexNumberFinish l1).1
      (lexNumberFinish l1).2.2.start (lexNumberFinish l1).2.1 := by
  obtain ⟨hin, hst, _, _, _, hpos, hlen⟩ := hsc
  have h1 : l1.pos ≤ l1.input.length := by rw [hin]; exact hlen hpl
  have h2 : l1.start < l1.pos := by rw [hst]; exact hgt
  obtain ⟨a1, a2, a3, a4⟩ := lexNumberFinish_ok l1 h1 h2
  rw [hin, hst] at a4
  exact ⟨a1.trans hin, a2, a3, a4⟩

/-- A lex-error return `([l1.errTok msg], none, l1)` after pure scanning
satisfies the step contract. -/
theorem stepErr_lift {l0 l1 : Lexer} (hsc : ScanFwd l0 l1)
    (hsp : l0.start ≤ l0.pos) (hpl : l0.pos ≤ l0.input.length) (msg : List Char) :
    l1.input = l0.input ∧ INV l1 ∧
    (∀ st', (none : Option LexState) = some st' → EntryInv st' l1) ∧
    StepOut l0.input l0.start [l1.errTok msg] l1.start none := by
  obtain ⟨hin, hst, _, _, _, hpos, hlen⟩ := hsc
  refine ⟨hin, ⟨?_, ?_⟩, by simp,
    Or.inr ⟨[], _, rfl, Or.inl rfl, rfl, VChain.nil hst.ge⟩⟩
  · omega
  · rw [hin]; exact hlen hpl

theorem lexNumber_ok (l : Lexer) (hInv : INV l) (hE : EntryInv .number l) :
    (lexNumber l).2.2.input = l.input ∧ INV (lexNumber l).2.2 ∧
    (∀ st', (lexNumber l).2.1 = some st' → EntryInv st' (lexNumber l).2.2) ∧
    StepOut l.input l.start (lexNumber l).1 (lexNumber l).2.2.start
      (lexNumber l).2.1 := by
  obtain ⟨hsp0, hpl⟩ := hInv
  obtain ⟨hsp, c, hc, hcd⟩ := hE
  rcases ha0 : l.accept ['0'] with ⟨b0, la⟩
  have hscA : ScanFwd l la := by
    have := scanFwd_accept l ['0']; rwa [ha0] at this
  cases b0 with
  | true =>
    have hpa : la.pos = l.pos + 1 := by
      have h := accept_true_pos (show (l.accept ['0']).1 = true by rw [ha0])
      simp only [ha0] at h
      exact h
    rcases hax : la.accept ['x', 'X'] with ⟨bx, lb⟩
    have hscB : ScanFwd la lb := by
      have := scanFwd_accept la ['x', 'X']; rwa [hax] at this
    cases bx with
    | true =>
      have hscC : ScanFwd lb (lb.acceptRun hexadecimalDigits (lb.input.length + 1)) :=
        scanFwd_acceptRun hexadecimalDigits (lb.input.length + 1) lb
      rcases had : (lb.acceptRun hexadecimalDigits (lb.input.length + 1)).accept ['.']
        with ⟨bd, ld⟩
      have hscD : ScanFwd (lb.acceptRun hexadecimalDigits (lb.input.length + 1)) ld := by
        have := scanFwd_accept (lb.acceptRun hexadecimalDigits (lb.input.length + 1)) ['.']
        rwa [had] at this
      have hscAll : ScanFwd l ld :=
        scanFwd_trans (scanFwd_trans (scanFwd_trans hscA hscB) hscC) hscD
      have hgt : l.start < ld.pos := by
        obtain ⟨_, _, _, _, _, hp1, _⟩ := hscB
        obtain ⟨_, _, _, _, _, hp2, _⟩ := hscC
        obtain ⟨_, _, _, _, _, hp3, _⟩ := hscD
        omega
      cases bd with
      | true =>
        have hred : lexNumber l =
            ([ld.errTok ("non-decimal number (starting with \x270x\x27) cannot contain a decimal point.".data)],
              none, ld) := by
          unfold lexNumber
          simp [ha0, hax, had]
        rw [hred]
        exact stepErr_lift hscAll hsp0 hpl _
      | false =>
        have hred : lexNumber l = lexNumberFinish ld := by
          unfold lexNumber
          simp [ha0, hax, had]
        rw [hred]
        exact lexNumberFinish_lift hscAll hgt hpl
    | false =>
      rcases hab : lb.accept ['b', 'B'] with ⟨bb, lb2⟩
      have hscB2 : ScanFwd lb lb2 := by
        have := scanFwd_accept lb ['b', 'B']; rwa [hab] at this
      cases bb with
      | true =>
        have hscC : ScanFwd lb2 (lb2.acceptRun binaryDigits (lb2.input.length + 1)) :=
          scanFwd_acceptRun binaryDigits (lb2.input.length + 1) lb2
        rcases had : (lb2.acceptRun binaryDigits (lb2.input.length + 1)).accept ['.']
          with ⟨bd, ld⟩
        have hscD : ScanFwd (lb2.acceptRun binaryDigits (lb2.input.length + 1)) ld := by
          have := scanFwd_accept (lb2.acceptRun binaryDigits (lb2.input.length + 1)) ['.']
          rwa [had] at this
        have hscAll : ScanFwd l ld :=
          scanFwd_trans (scanFwd_trans (scanFwd_trans (scanFwd_trans hscA hscB) hscB2)
            hscC) hscD
        have hgt : l.start < ld.pos := by
          obtain ⟨_, _, _, _, _, hp1, _⟩ := hscB
          obtain ⟨_, _, _, _, _, hp1b, _⟩ := hscB2
          obtain ⟨_, _, _, _, _, hp2, _⟩ := hscC
          obtain ⟨_, _, _, _, _, hp3, _⟩ := hscD
          omega
        cases bd with
        | true =>
          have hred : lexNumber l =
              ([ld.errTok ("non-decimal number (starting with \x270b\x27) cannot contain a decimal point.".data)],
                none, ld) := by
            unfold lexNumber
            simp [ha0, hax, hab, had]
          rw [hred]
          exact stepErr_lift hscAll hsp0 hpl _
        | false =>
          have hred : lexNumber l = lexNumberFinish ld := by
            unfold lexNumber
            simp [ha0, hax, hab, had]
          rw [hred]
          exact lexNumberFinish_lift hscAll hgt hpl
      | false =>
        have hscC : ScanFwd lb2 (lb2.acceptRun octalDigits (lb2.input.length + 1)) :=
          scanFwd_acceptRun octalDigits (lb2.input.length + 1) lb2
        rcases had : (lb2.acceptRun octalDigits (lb2.input.length + 1)).accept ['.']
          with ⟨bd, ld⟩
        have hscD : ScanFwd (lb2.acceptRun octalDigits (lb2.input.length + 1)) ld := by
          have := scanFwd_accept (lb2.acceptRun octalDigits (lb2.input.length + 1)) ['.']
          rwa [had] at this
        have hscAll : ScanFwd l ld :=
          scanFwd_trans (scanFwd_trans (scanFwd_trans (scanFwd_trans hscA hscB) hscB2)
            hscC) hscD
        have hgt : l.start < ld.pos := by
          obtain ⟨_, _, _, _, _, hp1, _⟩ := hscB
          obtain ⟨_, _, _, _, _, hp1b, _⟩ := hscB2
          obtain ⟨_, _, _, _, _, hp2, _⟩ := hscC
          obtain ⟨_, _, _, _, _, hp3, _⟩ := hscD
          omega
        cases bd with
        | true =>
          have hred : lexNumber l =
              ([ld.errTok ("non-decimal number (starting with \x270\x27) cannot contain a decimal point.".data)],
                none, ld) := by
            unfold lexNumber
            simp [ha0, hax, hab, had]
          rw [hred]
          exact stepErr_lift hscAll hsp0 hpl _
        | false =>
          have hred : lexNumber l = lexNumberFinish ld := by
            unfold lexNumber
            simp [ha0, hax, hab, had]
          rw [hred]
          exact lexNumberFinish_lift hscAll hgt hpl
  | false =>
    have hpa : la.pos = l.pos := by
      have h := accept_false_pos (show (l.accept ['0']).1 = false by rw [ha0])
      simp only [ha0] at h
      exact h
    have hca : la.input[la.pos]? = some c := by
      obtain ⟨hin, _, _, _, _, _, _⟩ := hscA
      rw [hin, hpa]; exact hc
    have hscC : ScanFwd la (la.acceptRun decimalDigits (la.input.length + 1)) :=
      scanFwd_acceptRun decimalDigits (la.input.length + 1) la
    rcases had : (la.acceptRun decimalDigits (la.input.length + 1)).accept ['.']
      with ⟨bd, ld⟩
    have hscD : ScanFwd (la.acceptRun decimalDigits (la.input.length + 1)) ld := by
      have := scanFwd_accept (la.acceptRun decimalDigits (la.input.length + 1)) ['.']
      rwa [had] at this
    have hscAll : ScanFwd l ld :=
      scanFwd_trans (scanFwd_trans hscA hscC) hscD
    have hgt : l.start < ld.pos := by
      cases hcd with
      | inl hdot =>
        have hnm : c ∉ decimalDigits := by rw [hdot]; decide
        have hrp : (la.acceptRun decimalDigits (la.input.length + 1)).pos = la.pos :=
          acceptRun_pos_of_not_mem hca hnm _
        have hcr : (la.acceptRun decimalDigits
            (la.input.length + 1)).input[(la.acceptRun decimalDigits
              (la.input.length + 1)).pos]? = some c := by
          obtain ⟨hin2, _, _, _, _, _, _⟩ := hscC
          rw [hin2, hrp]; exact hca
        have hm1 : c ∈ ['.'] := by rw [hdot]; decide
        have h2 := (accept_pos_of_mem hcr hm1).2
        simp only [had] at h2
        omega
      | inr hdig =>
        have hmem : c ∈ decimalDigits := isDigit_mem_decimal hdig
        have h1 : la.pos + 1 ≤ (la.acceptRun decimalDigits (la.input.length + 1)).pos :=
          acceptRun_pos_of_mem (la.input.length + 1) hca hmem
            (Nat.succ_le_succ (Nat.zero_le _))
        obtain ⟨_, _, _, _, _, hp3, _⟩ := hscD
        omega
    cases bd with
    | true =>
      have hscE : ScanFwd ld (ld.acceptRun decimalDigits (ld.input.length + 1)) :=
        scanFwd_acceptRun decimalDigits (ld.input.length + 1) ld
      have hscAll2 : ScanFwd l (ld.acceptRun decimalDigits (ld.input.length + 1)) :=
        scanFwd_trans hscAll hscE
      have hgt2 : l.start < (ld.acceptRun decimalDigits (ld.input.length + 1)).pos := by
        obtain ⟨_, _, _, _, _, hp4, _⟩ := hscE
        omega
      have hred : lexNumber l =
          lexNumberFinish (ld.acceptRun decimalDigits (ld.input.length + 1)) := by
        unfold lexNumber
        simp [ha0, had]
      rw [hred]
      exact lexNumberFinish_lift hscAll2 hgt2 hpl
    | false =>
      have hred : lexNumber l = lexNumberFinish ld := by
        unfold lexNumber
        simp [ha0, had]
      rw [hred]
      exact lexNumberFinish_lift hscAll hgt hpl

/-- An emit leaf of `lexAny`'s switch: one slice token, then hand off to a
state whose entry invariant holds. -/
theorem anyEmit_ok {l lf : Lexer} (ty : TokenType) (st : LexState)
    (h1 : ty ≠ .error) (h2 : ty ≠ .eof) (hin : lf.input = l.input)
    (hss : lf.start = lf.pos) (hgt : l.start < lf.pos)
    (hle : lf.pos ≤ l.input.length) (hE : EntryInv st lf) :
    lf.input = l.input ∧ INV lf ∧
    (∀ st', (some st : Option LexState) = some st' → EntryInv st' lf) ∧
    StepOut l.input l.start [⟨ty, l.start, extract l.input l.start lf.pos⟩]
      lf.start (some st) := by
  refine ⟨hin, ⟨hss.le, by rw [hin]; exact hle⟩, ?_, Or.inl ?_⟩
  · intro st' hst'; cases hst'; exact hE
  · rw [hss]
    exact vchain_single l.input ty l.start lf.pos h1 h2 hgt hle

/-- The unbalanced right-paren / right-curly leaves: one slice token
followed by an error token. -/
theorem anyEmitErr_ok {l lf : Lexer} (ty : TokenType) (msg : List Char)
    (h1 : ty ≠ .error) (h2 : ty ≠ .eof) (hin : lf.input = l.input)
    (hss : lf.start = lf.pos) (hgt : l.start < lf.pos)
    (hle : lf.pos ≤ l.input.length) :
    lf.input = l.input ∧ INV lf ∧
    (∀ st', (none : Option LexState) = some st' → EntryInv st' lf) ∧
    StepOut l.input l.start
      [⟨ty, l.start, extract l.input l.start lf.pos⟩, lf.errTok msg]
      lf.start none := by
  refine ⟨hin, ⟨hss.le, by rw [hin]; exact hle⟩, by simp, Or.inr ?_⟩
  refine ⟨[⟨ty, l.start, extract l.input l.start lf.pos⟩], lf.errTok msg, rfl,
    Or.inl rfl, rfl, ?_⟩
  rw [hss]
  exact vchain_single l.input ty l.start lf.pos h1 h2 hgt hle

/-- A dispatch leaf of `lexAny`'s switch: no tokens, hand off to a state
function whose entry invariant holds. -/
theorem anyDispatch_ok {l lf : Lexer} (st : LexState) (hsc : ScanFwd l lf)
    (hsp0 : l.start ≤ l.pos) (hpl : l.pos ≤ l.input.length)
    (hE : EntryInv st lf) :
    lf.input = l.input ∧ INV lf ∧
    (∀ st', (some st : Option LexState) = some st' → EntryInv st' lf) ∧
    StepOut l.input l.start ([] : List Token) lf.start (some st) := by
  obtain ⟨hin, hst, _, _, _, hpos, hlen⟩ := hsc
  refine ⟨hin, ⟨by omega, by rw [hin]; exact hlen hpl⟩, ?_,
    Or.inl (VChain.nil (by omega))⟩
  intro st' hst'; cases hst'; exact hE

theorem lexAnyCore_ok (l : Lexer) (hpl : l.pos ≤ l.input.length)
    (hsp : l.start = l.pos) :
    (lexAnyCore l).2.2.input = l.input ∧ INV (lexAnyCore l).2.2 ∧
    (∀ st', (lexAnyCore l).2.1 = some st' → EntryInv st' (lexAnyCore l).2.2) ∧
    StepOut l.input l.start (lexAnyCore l).1 (lexAnyCore l).2.2.start
      (lexAnyCore l).2.1 := by
  cases hr : l.input[l.pos]? with
  | none =>
    have hscw : ScanFwd l { l with width := 0 } :=
      ⟨rfl, rfl, rfl, rfl, rfl, le_refl _, id⟩
    by_cases hpd : l.parenDepth > 0
    · have hred : lexAnyCore l =
          ([Lexer.errTok { l with width := 0 } "unclosed left paren".data],
            none, { l with width := 0 }) := by
        unfold lexAnyCore
        simp [Lexer.next, hr, hpd]
      rw [hred]
      exact stepErr_lift hscw hsp.le hpl _
    · by_cases hcd : l.curlyDepth > 0
      · have hred : lexAnyCore l =
            ([Lexer.errTok { l with width := 0 } "unclosed right paren".data],
              none, { l with width := 0 }) := by
          unfold lexAnyCore
          simp [Lexer.next, hr, hpd, hcd]
        rw [hred]
        exact stepErr_lift hscw hsp.le hpl _
      · have hred : lexAnyCore l =
            ([⟨.eof, l.start, extract l.input l.start l.pos⟩], none,
              { l with width := 0, start := l.pos }) := by
          unfold lexAnyCore
          simp [Lexer.next, hr, hpd, hcd, Lexer.emitTok]
        rw [hred]
        refine ⟨rfl, ⟨le_refl _, ?_⟩, by simp,
          Or.inr ⟨[], _, rfl, Or.inr rfl, rfl, VChain.nil ?_⟩⟩
        · show l.pos ≤ l.input.length
          exact hpl
        · show l.start ≤ l.pos
          omega
  | some c =>
    have hlt : l.pos < l.input.length := (List.getElem?_eq_some.mp hr).1
    have hsc1 : ScanFwd l { l with width := 1, pos := l.pos + 1, canBackup := true } :=
      ⟨rfl, rfl, rfl, rfl, rfl, Nat.le_succ _, fun _ => hlt⟩
    have hscb : ScanFwd l { l with width := 1, pos := l.pos, canBackup := false } :=
      ⟨rfl, rfl, rfl, rfl, rfl, le_refl _, id⟩
    have hsc1f : ScanFwd l { l with width := 1, pos := l.pos + 1, canBackup := false } :=
      ⟨rfl, rfl, rfl, rfl, rfl, Nat.le_succ _, fun _ => hlt⟩
    have hsc0f : ScanFwd l { l with width := 0, pos := l.pos + 1, canBackup := false } :=
      ⟨rfl, rfl, rfl, rfl, rfl, Nat.le_succ _, fun _ => hlt⟩
    by_cases hb1 : (isSpace c || isEndOfLine c) = true
    · have hred : lexAnyCore l = ([], some .space,
          { l with width := 1, pos := l.pos + 1, canBackup := true }) := by
        unfold lexAnyCore
        simp [Lexer.next, hr, hb1]
      rw [hred]
      exact anyDispatch_ok .space hsc1 hsp.le hpl trivial
    · rw [Bool.not_eq_true] at hb1
      by_cases hb2 : (c == '.' || c.isDigit) = true
      · have hred : lexAnyCore l = ([], some .number,
            { l with width := 1, pos := l.pos, canBackup := false }) := by
          unfold lexAnyCore
          simp [Lexer.next, hr, hb1, hb2, Lexer.backup]
        rw [hred]
        refine anyDispatch_ok .number hscb hsp.le hpl ⟨hsp, c, hr, ?_⟩
        simpa using hb2
      · rw [Bool.not_eq_true] at hb2
        by_cases hb3 : isAlphaNumeric c = true
        · have hred : lexAnyCore l = ([], some .identifier,
              { l with width := 1, pos := l.pos, canBackup := false }) := by
            unfold lexAnyCore
            simp [Lexer.next, hr, hb1, hb2, hb3, Lexer.backup]
          rw [hred]
          exact anyDispatch_ok .identifier hscb hsp.le hpl ⟨hsp, c, hr, hb3⟩
        · rw [Bool.not_eq_true] at hb3
          by_cases hb4 : (c == '/') = true
          · -- the comment / block-comment / lone-slash sub-branches
            cases hn2 : l.input[l.pos + 1]? with
            | some c2 =>
              by_cases hc2 : c2 = '/'
              · subst hc2
                have h12 : l.pos + 1 < l.input.length :=
                  (List.getElem?_eq_some.mp hn2).1
                have hsc2t : ScanFwd l { l with width := 1, pos := l.pos + 2, canBackup := true } :=
                  ⟨rfl, rfl, rfl, rfl, rfl, Nat.le_add_right l.pos 2,
                    fun _ => (show l.pos + 2 <= l.input.length by omega)⟩
                have hred : lexAnyCore l = ([], some .comment,
                    { l with width := 1, pos := l.pos + 2, canBackup := true }) := by
                  unfold lexAnyCore
                  simp [Lexer.next, Lexer.peek, Lexer.backup, hr, hb1, hb2, hb3,
                    hb4, hn2]
                rw [hred]
                exact anyDispatch_ok .comment hsc2t hsp.le hpl trivial
              · have hc2' : (some c2 == some ('/' : Char)) = false := by
                  rw [Bool.eq_false_iff]
                  intro hx
                  exact hc2 (by simpa using hx)
                by_cases hst2 : c2 = '*'
                · subst hst2
                  have h12 : l.pos + 1 < l.input.length :=
                    (List.getElem?_eq_some.mp hn2).1
                  have hsc2t : ScanFwd l { l with width := 1, pos := l.pos + 2, canBackup := true } :=
                    ⟨rfl, rfl, rfl, rfl, rfl, Nat.le_add_right l.pos 2,
                      fun _ => (show l.pos + 2 <= l.input.length by omega)⟩
                  have hred : lexAnyCore l = ([], some .blockComment,
                      { l with width := 1, pos := l.pos + 2, canBackup := true }) := by
                    unfold lexAnyCore
                    simp [Lexer.next, Lexer.peek, Lexer.backup, hr, hb1, hb2, hb3,
                      hb4, hn2, hc2']
                  rw [hred]
                  exact anyDispatch_ok .blockComment hsc2t hsp.le hpl trivial
                · have hst2' : (some c2 == some ('*' : Char)) = false := by
                    rw [Bool.eq_false_iff]
                    intro hx
                    exact hst2 (by simpa using hx)
                  have hred : lexAnyCore l =
                      ([⟨.operator, l.start, extract l.input l.start (l.pos + 1)⟩],
                        some .any,
                        { l with
                            width := 1, pos := l.pos + 1, start := l.pos + 1, canBackup := false }) := by
                    unfold lexAnyCore
                    simp [Lexer.next, Lexer.peek, Lexer.backup, hr, hb1, hb2, hb3,
                      hb4, hn2, hc2', hst2', Lexer.emitTok]
                  rw [hred]
                  exact anyEmit_ok .operator .any (by decide) (by decide) rfl rfl
                    (show l.start < l.pos + 1 by omega)
                    (show l.pos + 1 ≤ l.input.length from hlt) rfl
            | none =>
              have hp1 : ((none : Option Char) == some ('/' : Char)) = false := by
                decide
              have hp2 : ((none : Option Char) == some ('*' : Char)) = false := by
                decide
              have hred : lexAnyCore l =
                  ([⟨.operator, l.start, extract l.input l.start (l.pos + 1)⟩],
                    some .any,
                    { l with
                        width := 0, pos := l.pos + 1, start := l.pos + 1, canBackup := false }) := by
                unfold lexAnyCore
                simp [Lexer.next, Lexer.peek, Lexer.backup, hr, hb1, hb2, hb3,
                  hb4, hn2, hp1, hp2, Lexer.emitTok]
              rw [hred]
              exact anyEmit_ok .operator .any (by decide) (by decide) rfl rfl
                (show l.start < l.pos + 1 by omega)
                (show l.pos + 1 ≤ l.input.length from hlt) rfl
          · rw [Bool.not_eq_true] at hb4
            by_cases hb5 : (c == '=') = true
            · have hred : lexAnyCore l =
                  ([⟨.assignment, l.start, extract l.input l.start (l.pos + 1)⟩],
                    some .any,
                    { l with
                        width := 1, pos := l.pos + 1, start := l.pos + 1, canBackup := true }) := by
                unfold lexAnyCore
                simp [Lexer.next, hr, hb1, hb2, hb3, hb4, hb5, Lexer.emitTok]
              rw [hred]
              exact anyEmit_ok .assignment .any (by decide) (by decide) rfl rfl
                (show l.start < l.pos + 1 by omega)
                (show l.pos + 1 ≤ l.input.length from hlt) rfl
            · rw [Bool.not_eq_true] at hb5
              by_cases hb6 : isOperator c = true
              · have hred : lexAnyCore l =
                    ([⟨.operator, l.start, extract l.input l.start (l.pos + 1)⟩],
                      some .any,
                      { l with
                          width := 1, pos := l.pos + 1, start := l.pos + 1, canBackup := true }) := by
                  unfold lexAnyCore
                  simp [Lexer.next, hr, hb1, hb2, hb3, hb4, hb5, hb6, Lexer.emitTok]
                rw [hred]
                exact anyEmit_ok .operator .any (by decide) (by decide) rfl rfl
                  (show l.start < l.pos + 1 by omega)
                  (show l.pos + 1 ≤ l.input.length from hlt) rfl
              · rw [Bool.not_eq_true] at hb6
                by_cases hb7 : (c == ':') = true
                · have hred : lexAnyCore l =
                      ([⟨.composition, l.start, extract l.input l.start (l.pos + 1)⟩],
                        some .any,
                        { l with
                            width := 1, pos := l.pos + 1, start := l.pos + 1, canBackup := true }) := by
                    unfold lexAnyCore
                    simp [Lexer.next, hr, hb1, hb2, hb3, hb4, hb5, hb6, hb7,
                      Lexer.emitTok]
                  rw [hred]
                  exact anyEmit_ok .composition .any (by decide) (by decide) rfl rfl
                    (show l.start < l.pos + 1 by omega)
                    (show l.pos + 1 ≤ l.input.length from hlt) rfl
                · rw [Bool.not_eq_true] at hb7
                  by_cases hb8 : (c == ',') = true
                  · have hred : lexAnyCore l =
                        ([⟨.seperator, l.start, extract l.input l.start (l.pos + 1)⟩],
                          some .any,
                          { l with
                              width := 1, pos := l.pos + 1, start := l.pos + 1, canBackup := true }) := by
                      unfold lexAnyCore
                      simp [Lexer.next, hr, hb1, hb2, hb3, hb4, hb5, hb6, hb7, hb8,
                        Lexer.emitTok]
                    rw [hred]
                    exact anyEmit_ok .seperator .any (by decide) (by decide) rfl rfl
                      (show l.start < l.pos + 1 by omega)
                      (show l.pos + 1 ≤ l.input.length from hlt) rfl
                  · rw [Bool.not_eq_true] at hb8
                    by_cases hb9 : (c == '(') = true
                    · have hred : lexAnyCore l =
                          ([⟨.leftParen, l.start, extract l.input l.start (l.pos + 1)⟩],
                            some .any,
                            { l with
                                width := 1, pos := l.pos + 1, start := l.pos + 1, canBackup := true, parenDepth := l.parenDepth + 1 }) := by
                        unfold lexAnyCore
                        simp [Lexer.next, hr, hb1, hb2, hb3, hb4, hb5, hb6, hb7, hb8,
                          hb9, Lexer.emitTok]
                      rw [hred]
                      exact anyEmit_ok .leftParen .any (by decide) (by decide) rfl rfl
                        (show l.start < l.pos + 1 by omega)
                        (show l.pos + 1 ≤ l.input.length from hlt) rfl
                    · rw [Bool.not_eq_true] at hb9
                      by_cases hb10 : (c == ')') = true
                      · by_cases hneg : l.parenDepth - 1 < 0
                        · have hred : lexAnyCore l =
                              ([⟨.rightParen, l.start,
                                  extract l.input l.start (l.pos + 1)⟩,
                                Lexer.errTok
                                  { l with
                                      width := 1, pos := l.pos + 1, start := l.pos + 1, canBackup := true, parenDepth := l.parenDepth - 1 }
                                  ("unexpected right paren ".data ++ fmtRuneU (some c))],
                                none,
                                { l with
                                    width := 1, pos := l.pos + 1, start := l.pos + 1, canBackup := true, parenDepth := l.parenDepth - 1 }) := by
                            unfold lexAnyCore
                            simp [Lexer.next, hr, hb1, hb2, hb3, hb4, hb5, hb6, hb7,
                              hb8, hb9, hb10, hneg, Lexer.emitTok]
                          rw [hred]
                          exact anyEmitErr_ok .rightParen _ (by decide) (by decide)
                            rfl rfl (show l.start < l.pos + 1 by omega)
                            (show l.pos + 1 ≤ l.input.length from hlt)
                        · have hred : lexAnyCore l =
                              ([⟨.rightParen, l.start,
                                  extract l.input l.start (l.pos + 1)⟩],
                                some .any,
                                { l with
                                    width := 1, pos := l.pos + 1, start := l.pos + 1, canBackup := true, parenDepth := l.parenDepth - 1 }) := by
                            unfold lexAnyCore
                            simp [Lexer.next, hr, hb1, hb2, hb3, hb4, hb5, hb6, hb7,
                              hb8, hb9, hb10, hneg, Lexer.emitTok]
                          rw [hred]
                          exact anyEmit_ok .rightParen .any (by decide) (by decide)
                            rfl rfl (show l.start < l.pos + 1 by omega)
                            (show l.pos + 1 ≤ l.input.length from hlt) rfl
                      · rw [Bool.not_eq_true] at hb10
                        by_cases hb11 : (c == '\x7b') = true
                        · have hred : lexAnyCore l =
                              ([⟨.leftCurly, l.start,
                                  extract l.input l.start (l.pos + 1)⟩],
                                some .any,
                                { l with
                                    width := 1, pos := l.pos + 1, start := l.pos + 1, canBackup := true, curlyDepth := l.curlyDepth + 1 }) := by
                            unfold lexAnyCore
                            simp [Lexer.next, hr, hb1, hb2, hb3, hb4, hb5, hb6, hb7,
                              hb8, hb9, hb10, hb11, Lexer.emitTok]
                          rw [hred]
                          exact anyEmit_ok .leftCurly .any (by decide) (by decide)
                            rfl rfl (show l.start < l.pos + 1 by omega)
                            (show l.pos + 1 ≤ l.input.length from hlt) rfl
                        · rw [Bool.not_eq_true] at hb11
                          by_cases hb12 : (c == '\x7d') = true
                          · by_cases hneg : l.parenDepth < 0
                            · have hred : lexAnyCore l =
                                  ([⟨.rightCurly, l.start,
                                      extract l.input l.start (l.pos + 1)⟩,
                                    Lexer.errTok
                                      { l with
                                          width := 1, pos := l.pos + 1, start := l.pos + 1, canBackup := true, curlyDepth := l.curlyDepth - 1 }
                                      ("unexpected right curly ".data ++
                                        fmtRuneU (some c))],
                                    none,
                                    { l with
                                        width := 1, pos := l.pos + 1, start := l.pos + 1, canBackup := true, curlyDepth := l.curlyDepth - 1 }) := by
                                unfold lexAnyCore
                                simp [Lexer.next, hr, hb1, hb2, hb3, hb4, hb5, hb6,
                                  hb7, hb8, hb9, hb10, hb11, hb12, hneg,
                                  Lexer.emitTok]
                              rw [hred]
                              exact anyEmitErr_ok .rightCurly _ (by decide)
                                (by decide) rfl rfl
                                (show l.start < l.pos + 1 by omega)
                                (show l.pos + 1 ≤ l.input.length from hlt)
                            · have hred : lexAnyCore l =
                                  ([⟨.rightCurly, l.start,
                                      extract l.input l.start (l.pos + 1)⟩],
                                    some .any,
                                    { l with
                                        width := 1, pos := l.pos + 1, start := l.pos + 1, canBackup := true, curlyDepth := l.curlyDepth - 1 }) := by
                                unfold lexAnyCore
                                simp [Lexer.next, hr, hb1, hb2, hb3, hb4, hb5, hb6,
                                  hb7, hb8, hb9, hb10, hb11, hb12, hneg,
                                  Lexer.emitTok]
                              rw [hred]
                              exact anyEmit_ok .rightCurly .any (by decide)
                                (by decide) rfl rfl
                                (show l.start < l.pos + 1 by omega)
                                (show l.pos + 1 ≤ l.input.length from hlt) rfl
                          · rw [Bool.not_eq_true] at hb12
                            by_cases hb13 : (c == '"') = true
                            · have hred : lexAnyCore l = ([], some .quote,
                                  { l with
                                      width := 1, pos := l.pos + 1, canBackup := true }) := by
                                unfold lexAnyCore
                                simp [Lexer.next, hr, hb1, hb2, hb3, hb4, hb5, hb6,
                                  hb7, hb8, hb9, hb10, hb11, hb12, hb13]
                              rw [hred]
                              exact anyDispatch_ok .quote hsc1 hsp.le hpl
                                (show l.start < l.pos + 1 by omega)
                            · rw [Bool.not_eq_true] at hb13
                              by_cases hb14 : (c == '\x27') = true
                              · have hred : lexAnyCore l = ([], some .charConst,
                                    { l with
                                        width := 1, pos := l.pos + 1, canBackup := true }) := by
                                  unfold lexAnyCore
                                  simp [Lexer.next, hr, hb1, hb2, hb3, hb4, hb5,
                                    hb6, hb7, hb8, hb9, hb10, hb11, hb12, hb13,
                                    hb14]
                                rw [hred]
                                exact anyDispatch_ok .charConst hsc1 hsp.le hpl
                                  (show l.start < l.pos + 1 by omega)
                              · rw [Bool.not_eq_true] at hb14
                                by_cases hb15 : (c == '[') = true
                                · cases hn2 : l.input[l.pos + 1]? with
                                  | some c2 =>
                                    by_cases hq : (c2 == '.' || c2.isDigit) = true
                                    · have hred : lexAnyCore l =
                                          ([⟨.leftSquare, l.start,
                                              extract l.input l.start (l.pos + 1)⟩],
                                            some .number,
                                            { l with
                                                width := 1, pos := l.pos + 1, start := l.pos + 1, canBackup := false, squareDepth := l.squareDepth + 1 }) := by
                                        unfold lexAnyCore
                                        simp [Lexer.next, Lexer.peek, Lexer.backup,
                                          hr, hb1, hb2, hb3, hb4, hb5, hb6, hb7,
                                          hb8, hb9, hb10, hb11, hb12, hb13, hb14,
                                          hb15, hn2, hq, Lexer.emitTok]
                                      rw [hred]
                                      refine anyEmit_ok .leftSquare .number
                                        (by decide) (by decide) rfl rfl
                                        (show l.start < l.pos + 1 by omega)
                                        (show l.pos + 1 ≤ l.input.length from hlt)
                                        ⟨rfl, c2, hn2, ?_⟩
                                      simpa using hq
                                    · rw [Bool.not_eq_true] at hq
                                      by_cases hne : (c2 != ']') = true
                                      · have hred : lexAnyCore l =
                                            ([Lexer.errTok
                                                { l with
                                                    width := 1, pos := l.pos + 1, canBackup := false }
                                                ("unexpected character: ".data ++
                                                  fmtRuneU (some c2) ++
                                                  ", following \x27[\x27".data)],
                                              none,
                                              { l with
                                                  width := 1, pos := l.pos + 1, canBackup := false }) := by
                                          unfold lexAnyCore
                                          simp [Lexer.next, Lexer.peek, Lexer.backup,
                                            hr, hb1, hb2, hb3, hb4, hb5, hb6, hb7,
                                            hb8, hb9, hb10, hb11, hb12, hb13, hb14,
                                            hb15, hn2, hq, hne]
                                        rw [hred]
                                        exact stepErr_lift hsc1f hsp.le hpl _
                                      · rw [Bool.not_eq_true] at hne
                                        have h12 : l.pos + 1 < l.input.length :=
                                          (List.getElem?_eq_some.mp hn2).1
                                        have hred : lexAnyCore l =
                                            ([⟨.varArray, l.start,
                                                extract l.input l.start (l.pos + 2)⟩],
                                              some .any,
                                              { l with
                                                  width := 1, pos := l.pos + 2, start := l.pos + 2, canBackup := true }) := by
                                          unfold lexAnyCore
                                          simp [Lexer.next, Lexer.peek, Lexer.backup,
                                            hr, hb1, hb2, hb3, hb4, hb5, hb6, hb7,
                                            hb8, hb9, hb10, hb11, hb12, hb13, hb14,
                                            hb15, hn2, hq, hne, Lexer.emitTok]
                                        rw [hred]
                                        exact anyEmit_ok .varArray .any (by decide)
                                          (by decide) rfl rfl
                                          (show l.start < l.pos + 2 by omega)
                                          (show l.pos + 2 ≤ l.input.length by omega)
                                          rfl
                                  | none =>
                                    have hred : lexAnyCore l =
                                        ([Lexer.errTok
                                            { l with
                                                width := 0, pos := l.pos + 1, canBackup := false }
                                            ("unexpected character: ".data ++
                                              fmtRuneU none ++
                                              ", following \x27[\x27".data)],
                                          none,
                                          { l with
                                              width := 0, pos := l.pos + 1, canBackup := false }) := by
                                      unfold lexAnyCore
                                      simp [Lexer.next, Lexer.peek, Lexer.backup,
                                        hr, hb1, hb2, hb3, hb4, hb5, hb6, hb7, hb8,
                                        hb9, hb10, hb11, hb12, hb13, hb14, hb15,
                                        hn2]
                                    rw [hred]
                                    exact stepErr_lift hsc0f hsp.le hpl _
                                · rw [Bool.not_eq_true] at hb15
                                  by_cases hb16 : (c == ';') = true
                                  · have hred : lexAnyCore l =
                                        ([⟨.endline, l.start,
                                            extract l.input l.start (l.pos + 1)⟩],
                                          some .any,
                                          { l with
                                              width := 1, pos := l.pos + 1, start := l.pos + 1, canBackup := true }) := by
                                      unfold lexAnyCore
                                      simp [Lexer.next, hr, hb1, hb2, hb3, hb4, hb5,
                                        hb6, hb7, hb8, hb9, hb10, hb11, hb12, hb13,
                                        hb14, hb15, hb16, Lexer.emitTok]
                                    rw [hred]
                                    exact anyEmit_ok .endline .any (by decide)
                                      (by decide) rfl rfl
                                      (show l.start < l.pos + 1 by omega)
                                      (show l.pos + 1 ≤ l.input.length from hlt) rfl
                                  · rw [Bool.not_eq_true] at hb16
                                    have hred : lexAnyCore l =
                                        ([Lexer.errTok
                                            { l with
                                                width := 1, pos := l.pos + 1, canBackup := true }
                                            ("unexpected character: ".data ++
                                              fmtRuneU (some c))],
                                          none,
                                          { l with
                                              width := 1, pos := l.pos + 1, canBackup := true }) := by
                                      unfold lexAnyCore
                                      simp [Lexer.next, hr, hb1, hb2, hb3, hb4, hb5,
                                        hb6, hb7, hb8, hb9, hb10, hb11, hb12, hb13,
                                        hb14, hb15, hb16]
                                    rw [hred]
                                    exact stepErr_lift hsc1 hsp.le hpl _

/-- Prepending a source-slice token reaching exactly `p2` to a chain that
starts at `p2`. -/
theorem vchain_cons_slice (input : List Char) (ty : TokenType) (a p2 b : Nat)
    {ts : List Token} (h1 : ty ≠ .error) (h2 : ty ≠ .eof) (hap : a < p2)
    (hp2 : p2 ≤ input.length) (hrest : VChain input p2 ts b) :
    VChain input a (⟨ty, a, extract input a p2⟩ :: ts) b := by
  have hlen : (extract input a p2).length = p2 - a := by
    simp only [extract, List.length_take, List.length_drop]
    omega
  refine VChain.cons ?_ (le_refl _) ?_ ?_ ?_
  · dsimp only [ctrlTok]
    intro hc
    rcases hc with hc | hc
    · exact h1 hc
    · exact h2 hc
  · dsimp only
    rw [hlen]; omega
  · show extract input a p2 = extract input a (a + (extract input a p2).length)
    rw [hlen]
    congr 1
    omega
  · show VChain input (a + (extract input a p2).length) ts b
    rw [hlen]
    have hap2 : a + (p2 - a) = p2 := by omega
    rw [hap2]
    exact hrest

/-- A `StepOut` contract survives prepending one slice token that ends
exactly where the rest starts (the `']'` emitted by `lexAny`'s
square-bracket prelude). -/
theorem stepOut_prepend_slice {input : List Char} {a p2 b : Nat}
    {ts : List Token} {stOpt : Option LexState} (ty : TokenType)
    (h1 : ty ≠ .error) (h2 : ty ≠ .eof) (hap : a < p2)
    (hp2 : p2 ≤ input.length) (hso : StepOut input p2 ts b stOpt) :
    StepOut input a (⟨ty, a, extract input a p2⟩ :: ts) b stOpt := by
  rcases hso with hv | ⟨vs, cr, heq, hctrl, hnone, hv⟩
  · exact Or.inl (vchain_cons_slice input ty a p2 b h1 h2 hap hp2 hv)
  · refine Or.inr ⟨⟨ty, a, extract input a p2⟩ :: vs, cr, ?_, hctrl,
      hnone, ?_⟩
    · rw [heq]
      rfl
    · exact vchain_cons_slice input ty a p2 b h1 h2 hap hp2 hv

theorem lexAny_ok (l : Lexer) (hInv : INV l) (hsp : l.start = l.pos) :
    (lexAny l).2.2.input = l.input ∧ INV (lexAny l).2.2 ∧
    (∀ st', (lexAny l).2.1 = some st' → EntryInv st' (lexAny l).2.2) ∧
    StepOut l.input l.start (lexAny l).1 (lexAny l).2.2.start
      (lexAny l).2.1 := by
  obtain ⟨hsp0, hpl⟩ := hInv
  by_cases hsq : l.squareDepth > 0
  · cases hr : l.input[l.pos]? with
    | none =>
      have hscw : ScanFwd l { l with width := 0 } :=
        ⟨rfl, rfl, rfl, rfl, rfl, le_refl _, id⟩
      have hp0 : ((none : Option Char) == some (']' : Char)) = false := by decide
      have hred : lexAny l =
          ([Lexer.errTok { l with width := 0 } "found opening \x27[\x27 without matching \x27]\x27 for array type definition.".data],
            none, { l with width := 0 }) := by
        unfold lexAny
        simp [hsq, Lexer.next, hr, hp0]
      rw [hred]
      exact stepErr_lift hscw hsp0 hpl _
    | some c =>
      have hlt : l.pos < l.input.length := (List.getElem?_eq_some.mp hr).1
      by_cases hc : c = ']'
      · subst hc
        rcases hcore : lexAnyCore
            { l with width := 1, pos := l.pos + 1, start := l.pos + 1, canBackup := true }
          with ⟨ts, stO, lf⟩
        have hok := lexAnyCore_ok
          { l with width := 1, pos := l.pos + 1, start := l.pos + 1, canBackup := true }
          (show l.pos + 1 ≤ l.input.length from hlt) rfl
        rw [hcore] at hok
        obtain ⟨hin, hI, hEI, hSO⟩ := hok
        have hred : lexAny l =
            (⟨.rightSquare, l.start, extract l.input l.start (l.pos + 1)⟩ :: ts,
              stO, lf) := by
          unfold lexAny
          simp [hsq, Lexer.next, hr, Lexer.emitTok, hcore]
        rw [hred]
        refine ⟨hin, hI, hEI, ?_⟩
        exact stepOut_prepend_slice .rightSquare (by decide) (by decide)
          (show l.start < l.pos + 1 by omega) hlt hSO
      · have hc' : (some c == some (']' : Char)) = false := by
          rw [Bool.eq_false_iff]
          intro hx
          exact hc (by simpa using hx)
        have hsc1 : ScanFwd l { l with width := 1, pos := l.pos + 1, canBackup := true } :=
          ⟨rfl, rfl, rfl, rfl, rfl, Nat.le_succ _, fun _ => hlt⟩
        have hred : lexAny l =
            ([Lexer.errTok { l with width := 1, pos := l.pos + 1, canBackup := true } "found opening \x27[\x27 without matching \x27]\x27 for array type definition.".data],
              none, { l with width := 1, pos := l.pos + 1, canBackup := true }) := by
          unfold lexAny
          simp [hsq, Lexer.next, hr, hc']
        rw [hred]
        exact stepErr_lift hsc1 hsp0 hpl _
  · have hred : lexAny l = lexAnyCore l := by
      unfold lexAny
      simp [hsq]
    rw [hred]
    exact lexAnyCore_ok l hpl hsp

theorem lexStep_ok (st : LexState) (l : Lexer) (hInv : INV l)
    (hE : EntryInv st l) :
    (lexStep st l).2.2.input = l.input ∧ INV (lexStep st l).2.2 ∧
    (∀ st', (lexStep st l).2.1 = some st' → EntryInv st' (lexStep st l).2.2) ∧
    StepOut l.input l.start (lexStep st l).1 (lexStep st l).2.2.start
      (lexStep st l).2.1 := by
  cases st with
  | any => exact lexAny_ok l hInv hE
  | comment => exact lexComment_ok l hInv
  | blockComment => exact lexBlockComment_ok l hInv
  | space => exact lexSpace_ok l hInv
  | identifier => exact lexIdentifier_ok l hInv hE
  | quote => exact lexQuote_ok l hInv hE
  | charConst => exact lexChar_ok l hInv hE
  | number => exact lexNumber_ok l hInv hE

/-- The whole scan, from any state whose entry invariant holds, emits a
well-shaped token sequence. -/
theorem lexRun_emits : ∀ (fuel : Nat) (st : LexState) (l : Lexer), INV l →
    EntryInv st l → EmitsChain l.input l.start (lexRun fuel st l) := by
  intro fuel
  induction fuel with
  | zero =>
    intro st l _ _
    exact .nil
  | succ k ih =>
    intro st l hInv hE
    rcases hs : lexStep st l with ⟨toks, stOpt, l1⟩
    have hok := lexStep_ok st l hInv hE
    rw [hs] at hok
    obtain ⟨hin, hI, hEI, hSO⟩ := hok
    cases stOpt with
    | none =>
      have hred : lexRun (k + 1) st l = toks := by
        simp [lexRun, hs]
      rw [hred]
      rcases hSO with hv | ⟨vs, cr, heq, hctrl, _, hv⟩
      · exact hv.toEmits
      · rw [show toks = vs ++ [cr] from heq]
        exact EmitsChain.prepend hv (.ctrl hctrl)
    | some st' =>
      have hred : lexRun (k + 1) st l = toks ++ lexRun k st' l1 := by
        simp [lexRun, hs]
      rw [hred]
      have hI' : INV l1 := hI
      have hE' : EntryInv st' l1 := hEI st' rfl
      have hrest := ih st' l1 hI' hE'
      have hin' : l1.input = l.input := hin
      rw [hin'] at hrest
      refine EmitsChain.prepend ?_ hrest
      exact (show StepOut l.input l.start toks l1.start (some st') from
        hSO).resolve_right
        (fun ⟨_, _, _, _, hnone, _⟩ => Option.noConfusion hnone)

/-- The delivered token sequence of `lex(input)` is a well-shaped chain
from offset 0. -/
theorem lexAll_emits (input : List Char) : EmitsChain input 0 (lexAll input) :=
  lexRun_emits (2 * input.length + 8) .any (initLexer input)
    ⟨le_refl 0, Nat.zero_le _⟩ rfl

theorem emitsChain_errorEnds {input : List Char} {a : Nat} {ts : List Token}
    (h : EmitsChain input a ts) : errorEndsStream ts = true := by
  induction h with
  | nil => rfl
  | ctrl hc =>
    simp only [errorEndsStream]
    split
    · rfl
    · rfl
  | @cons a t ts hnc hpos hlen hsl htail ih =>
    have hne : ¬(t.typ = TokenType.error) := fun hx => hnc (Or.inl hx)
    simp only [errorEndsStream, if_neg hne]
    exact ih

theorem emitsChain_sliced {input : List Char} {a : Nat} {ts : List Token}
    (h : EmitsChain input a ts) : tokensSlicedFrom input a ts = true := by
  induction h with
  | nil => rfl
  | @ctrl a t hc =>
    have hcond : t.typ = TokenType.error ∨ t.typ = TokenType.eof := hc
    simp only [tokensSlicedFrom, if_pos hcond]
  | @cons a t ts hnc hpos hlen hsl htail ih =>
    have hcond : ¬(t.typ = TokenType.error ∨ t.typ = TokenType.eof) := hnc
    simp only [tokensSlicedFrom, if_neg hcond]
    simp only [Bool.and_eq_true, decide_eq_true_eq]
    exact ⟨⟨⟨hpos, hlen⟩, hsl⟩, ih⟩

/-- **C6.** The lexer half of the claim holds universally: once an error
token is delivered the token sequence ends permanently.  The parser half
is refuted on input `3k`: the lexer delivers exactly one "bad number
syntax" error token and the parser stops consuming, but the diagnostic
list `Parse` returns is empty — `parseDeclaration` builds the lex-error
diagnostic inside a value-receiver copy of the parser, which is discarded
on return, so the error is never recorded. -/
theorem c6_error_token_handling_refuted :
    (∀ input : List Char, errorEndsStream (lexAll input) = true) ∧
    (lexAll "3k".data).map Token.typ = [.error] ∧
    (parseFile "3k".data 2).map (fun r => r.2.1) = some [] :=
  ⟨fun input => emitsChain_errorEnds (lexAll_emits input), by decide, by decide⟩

/-- **C10.** For every input, every emitted token other than error and eof
is an exact source slice (its text is the input substring of its own
length at its recorded offset), and the offsets of successive such tokens
strictly increase. -/
theorem c10_tokens_are_source_slices :
    ∀ input : List Char, tokensSlicedFrom input 0 (lexAll input) = true :=
  fun input => emitsChain_sliced (lexAll_emits input)

end Dclass
